import Mathlib

/-!
# Shallow embedding of the lightyear server connection engine

This file embeds the server half of the lightyear networking runtime
(`src/lightyear/src/server/server.rs`) and proves properties of its room /
user / entity scoping algorithm, its message routing, and its event loop.

The `Server` struct and all of its methods are translated from the Rust
source.  External collaborators that the source file only calls into
(`Room`, `User`, `EntityManager`, `MessageManager`, `WorldRecord`,
`EntityScopeMap`, `TickManager`, the ECS world and the `Io` layer) are
modelled from the specification; each such definition carries a doc comment
saying so.  Generational `BigMap` keys are modelled as monotonically growing
`Nat` keys (generational keys are never reused, which the growing counter
captures); `HashMap`s become association lists; packets written to the
socket become an `outbox` list; a Rust `panic!` becomes an `Option`-valued
result (`none` = panic) or an explicit panic-message component.
-/

set_option linter.unusedVariables false

namespace Lightyear

/-! ### Association-list and set-list primitives -/

def alookup {κ α : Type} [DecidableEq κ] (k : κ) : List (κ × α) → Option α
  | [] => none
  | p :: rest => if p.1 = k then some p.2 else alookup k rest

def aerase {κ α : Type} [DecidableEq κ] (k : κ) : List (κ × α) → List (κ × α)
  | [] => []
  | p :: rest => if p.1 = k then aerase k rest else p :: aerase k rest

def amodify {κ α : Type} [DecidableEq κ] (k : κ) (f : α → α) : List (κ × α) → List (κ × α)
  | [] => []
  | p :: rest => (if p.1 = k then (p.1, f p.2) else p) :: amodify k f rest

def ainsert {κ α : Type} [DecidableEq κ] (k : κ) (v : α) (l : List (κ × α)) : List (κ × α) :=
  (k, v) :: aerase k l

def linsert (x : Nat) (l : List Nat) : List Nat := if x ∈ l then l else l ++ [x]

def lremove (x : Nat) : List Nat → List Nat
  | [] => []
  | y :: rest => if y = x then lremove x rest else y :: lremove x rest

/-! ### Messages and channels -/

/-- Modelled from the spec: a polymorphic message.  `entities` is the list of
entity references the message declares (the source maps message handles
through `world_record.handle_to_entity`; we model handles as already
resolved entities). -/
structure Msg where
  hasEntityProperties : Bool
  entities : List Nat
  payload : Nat
deriving DecidableEq

/-! ### EntityManager (per connection) -/

/-- A replication delta enqueued on a connection by its `EntityManager`. -/
inductive EMOp
  | spawnEntity (e : Nat)
  | despawnEntity (e : Nat)
  | insertComponent (e : Nat) (kind : Nat)
  | removeComponent (e : Nat) (kind : Nat)
deriving DecidableEq

/-- Modelled from the spec (4.7): the connection-local mirror world.
`scopeEntities` is the set returned by `scope_has_entity`;
`openEntityChannels` backs `entity_channel_is_open` (an entity channel opens
only once the spawn round-trips, so it is tracked separately from the
scope set); `opLog` records the emitted spawn/despawn/insert/remove deltas
in order; `pendingEntityMessages` is the parking multimap keyed by the
blocking entities. -/
structure EntityManager where
  scopeEntities : List Nat
  openEntityChannels : List Nat
  opLog : List EMOp
  pendingEntityMessages : List (List Nat × Nat × Msg)
deriving DecidableEq

def EntityManager.empty : EntityManager := ⟨[], [], [], []⟩

/-- Modelled from the spec: `scope_has_entity`. -/
def EntityManager.scope_has_entity (em : EntityManager) (e : Nat) : Bool :=
  decide (e ∈ em.scopeEntities)

/-- Modelled from the spec: `entity_channel_is_open`. -/
def EntityManager.entity_channel_is_open (em : EntityManager) (e : Nat) : Bool :=
  decide (e ∈ em.openEntityChannels)

/-- Modelled from the spec: `spawn_entity` marks the entity in-scope and
enqueues a spawn message. -/
def EntityManager.spawn_entity (em : EntityManager) (e : Nat) : EntityManager :=
  { em with scopeEntities := linsert e em.scopeEntities,
            opLog := em.opLog ++ [EMOp.spawnEntity e] }

/-- Modelled from the spec: `despawn_entity` enqueues a despawn, removes the
entity from the mirror and cancels pending entity messages depending on it. -/
def EntityManager.despawn_entity (em : EntityManager) (e : Nat) : EntityManager :=
  { em with scopeEntities := lremove e em.scopeEntities,
            openEntityChannels := lremove e em.openEntityChannels,
            opLog := em.opLog ++ [EMOp.despawnEntity e],
            pendingEntityMessages :=
              em.pendingEntityMessages.filter (fun q => decide (e ∉ q.1)) }

/-- Modelled from the spec: `insert_component` enqueues a delta. -/
def EntityManager.insert_component (em : EntityManager) (e : Nat) (kind : Nat) : EntityManager :=
  { em with opLog := em.opLog ++ [EMOp.insertComponent e kind] }

/-- Modelled from the spec: `remove_component` enqueues a delta. -/
def EntityManager.remove_component (em : EntityManager) (e : Nat) (kind : Nat) : EntityManager :=
  { em with opLog := em.opLog ++ [EMOp.removeComponent e kind] }

/-- Modelled from the spec: `queue_entity_message` parks a message until all
of its entity dependencies are in scope. -/
def EntityManager.queue_entity_message (em : EntityManager) (entities : List Nat)
    (channel : Nat) (m : Msg) : EntityManager :=
  { em with pendingEntityMessages := em.pendingEntityMessages ++ [(entities, channel, m)] }

/-! ### MessageManager (per connection) -/

/-- Modelled from the spec (4.4): per-connection channel buffering.
`sendQueue` holds messages enqueued by `send_message`; `deliveryQueue`
holds received messages pending `receive_messages`' drain into the events
sink, as `(channel, message)` pairs. -/
structure MessageManager where
  sendQueue : List (Nat × Msg)
  deliveryQueue : List (Nat × Msg)
deriving DecidableEq

def MessageManager.empty : MessageManager := ⟨[], []⟩

/-- Modelled from the spec: `send_message(channel, msg)` enqueues. -/
def MessageManager.send_message (mm : MessageManager) (channel : Nat) (m : Msg) :
    MessageManager :=
  { mm with sendQueue := mm.sendQueue ++ [(channel, m)] }

/-! ### Connection -/

/-- One per accepted user (source: `Connection::new` aggregates the per
client pieces).  `tickBuffer` holds `(clientTick, channel, message)`
entries; the liveness booleans stand for the `should_drop`,
`should_send_heartbeat` and `should_send_ping` timer queries. -/
structure Connection where
  userKey : Nat
  address : Nat
  shouldDrop : Bool
  shouldSendHeartbeat : Bool
  shouldSendPing : Bool
  entityManager : EntityManager
  messageManager : MessageManager
  tickBuffer : List (Nat × Nat × Msg)
deriving DecidableEq

def Connection.new (userKey address : Nat) : Connection :=
  ⟨userKey, address, false, false, false, EntityManager.empty, MessageManager.empty, []⟩

/-! ### User and Room -/

/-- Modelled from the spec: a user has a peer address and a cached set of
room keys. -/
structure User where
  address : Nat
  roomKeys : List Nat
deriving DecidableEq

def User.new (address : Nat) : User := ⟨address, []⟩

def User.cache_room (u : User) (r : Nat) : User :=
  { u with roomKeys := linsert r u.roomKeys }

def User.uncache_room (u : User) (r : Nat) : User :=
  { u with roomKeys := lremove r u.roomKeys }

/-- Modelled from the spec: a room has a set of user keys, a set of
entities, and a FIFO entity-removal queue of `(user, entity)` pairs whose
visibility may have dropped. -/
structure Room where
  userKeys : List Nat
  entities : List Nat
  removalQueue : List (Nat × Nat)
deriving DecidableEq

def Room.new : Room := ⟨[], [], []⟩

def Room.subscribe_user (room : Room) (k : Nat) : Room :=
  { room with userKeys := linsert k room.userKeys }

def Room.unsubscribe_user (room : Room) (k : Nat) : Room :=
  { room with userKeys := lremove k room.userKeys }

def Room.add_entity (room : Room) (e : Nat) : Room :=
  { room with entities := linsert e room.entities }

/-- Modelled from the spec: removing an entity from a room records a
`(user, entity)` pair in the removal queue for every user of the room
(their visibility of the entity may have dropped). -/
def Room.remove_entity (room : Room) (e : Nat) : Room :=
  { room with entities := lremove e room.entities,
              removalQueue := room.removalQueue ++ room.userKeys.map (fun u => (u, e)) }

def Room.has_user (room : Room) (k : Nat) : Bool := decide (k ∈ room.userKeys)

/-! ### WorldRecord and the external world -/

/-- Modelled from the spec: the authoritative mirror of entity existence,
per-entity component kinds, and the rooms each entity belongs to. -/
structure WorldRecord where
  componentKinds : List (Nat × List Nat)
  entityRooms : List (Nat × List Nat)
deriving DecidableEq

def WorldRecord.empty : WorldRecord := ⟨[], []⟩

def WorldRecord.spawn_entity (wr : WorldRecord) (e : Nat) : WorldRecord :=
  { componentKinds := ainsert e [] wr.componentKinds,
    entityRooms := ainsert e [] wr.entityRooms }

/-- The source calls `component_kinds(entity).unwrap()`; on the states we
consider the entity is always recorded, so the missing-entry case defaults
to the empty kind list. -/
def WorldRecord.component_kinds (wr : WorldRecord) (e : Nat) : List Nat :=
  (alookup e wr.componentKinds).getD []

def WorldRecord.entity_enter_room (wr : WorldRecord) (e : Nat) (r : Nat) : WorldRecord :=
  if (alookup e wr.entityRooms).isSome then
    { wr with entityRooms := amodify e (fun rs => linsert r rs) wr.entityRooms }
  else
    { wr with entityRooms := wr.entityRooms ++ [(e, [r])] }

/-- Modelled from the spec: `entity_leave_rooms` takes only the entity (no
room key), so it clears the entity's room membership record entirely. -/
def WorldRecord.entity_leave_rooms (wr : WorldRecord) (e : Nat) : WorldRecord :=
  { wr with entityRooms := amodify e (fun _ => []) wr.entityRooms }

def WorldRecord.entity_is_in_room (wr : WorldRecord) (e : Nat) (r : Nat) : Bool :=
  decide (r ∈ (alookup e wr.entityRooms).getD [])

/-- The external ECS world: each entity carries an association list from
component kind to component value. -/
abbrev World := List (Nat × List (Nat × Nat))

def World.has_entity (w : World) (e : Nat) : Bool := (alookup e w).isSome

def World.entity_contains (w : World) (e : Nat) (kind : Nat) : Bool :=
  (alookup kind ((alookup e w).getD [])).isSome

def World.insert_comp (w : World) (e : Nat) (kind : Nat) (value : Nat) : World :=
  amodify e (fun comps => ainsert kind value comps) w

def World.get_comp (w : World) (e : Nat) (kind : Nat) : Option Nat :=
  alookup kind ((alookup e w).getD [])

/-! ### TickManager, packets, events -/

/-- Modelled from the spec (4.3): the server tick counter.  `ticksPending`
is the number of wall-clock tick crossings not yet consumed by
`recv_server_tick` (which consumes at most one per call). -/
structure TickManager where
  serverTick : Nat
  ticksPending : Nat
deriving DecidableEq

def TickManager.recv_server_tick (tm : TickManager) : Bool × TickManager :=
  match tm.ticksPending with
  | 0 => (false, tm)
  | n + 1 => (true, { serverTick := tm.serverTick + 1, ticksPending := n })

def TickManager.server_tick (tm : TickManager) : Nat := tm.serverTick

/-- Outgoing control packets written to the `Io` layer. -/
inductive Packet
  | challengeResponse
  | connectResponse
  | rejectResponse
  | heartbeat
  | ping
  | pong
deriving DecidableEq

/-- Events surfaced by `receive()`. -/
inductive Event
  | connection (k : Nat)
  | auth (k : Nat) (payload : Nat)
  | disconnection (k : Nat) (u : User)
  | message (k : Nat) (channel : Nat) (m : Msg)
  | tick
  | error
deriving DecidableEq

/-- Result of `HandshakeManager::recv_connect_request` (external manager,
modelled from the spec: `Success(Option<auth>) | Invalid`). -/
inductive HandshakeResult
  | success (auth : Option Nat)
  | invalid
deriving DecidableEq

/-- The inbound packets `maintain_socket` dispatches on, pre-parsed.
`Data`/`Ping`/`Pong`/`Heartbeat` bodies are handled by external managers
and do not touch the state this development reasons about, so the model
carries the handshake-relevant packet types, client-initiated disconnects,
malformed packets and io errors. -/
inductive InPacket
  | challengeRequest (valid : Bool)
  | connectRequest (result : HandshakeResult)
  | disconnect (valid : Bool)
  | malformed
  | ioError
deriving DecidableEq

/-! ### The Server struct -/

/-- The `Server` struct from the source.  `outbox` stands for packets sent
through `Io`; `handshake_addresses` is the `HandshakeManager`'s per-address
state touched by `delete_user`; `bandwidth_clients` is the io register /
deregister bookkeeping; `channels` is the static channel registry mapping a
`ChannelId` to its `can_send_to_client` flag; the three `*_ringing` flags
stand for the heartbeat / timeout / ping timers. -/
structure Server where
  next_user_key : Nat
  users : List (Nat × User)
  user_connections : List (Nat × Connection)
  next_room_key : Nat
  rooms : List (Nat × Room)
  entity_scope_map : List ((Nat × Nat) × Bool)
  world_record : WorldRecord
  incoming_events : List Event
  outbox : List (Nat × Packet)
  handshake_addresses : List Nat
  bandwidth_clients : List Nat
  bandwidth_monitor_on : Bool
  channels : List (Nat × Bool)
  tick_manager : Option TickManager
  timeout_ringing : Bool
  heartbeat_ringing : Bool
  ping_ringing : Bool
deriving DecidableEq

/-- `Server::new`. -/
def Server.new (channels : List (Nat × Bool)) (bandwidthOn : Bool)
    (tickManager : Option TickManager) : Server :=
  { next_user_key := 0, users := [], user_connections := [], next_room_key := 0,
    rooms := [], entity_scope_map := [], world_record := WorldRecord.empty,
    incoming_events := [], outbox := [], handshake_addresses := [],
    bandwidth_clients := [], bandwidth_monitor_on := bandwidthOn,
    channels := channels, tick_manager := tickManager,
    timeout_ringing := false, heartbeat_ringing := false, ping_ringing := false }

def Server.can_send_to_client (s : Server) (channel : Nat) : Bool :=
  (alookup channel s.channels).getD false

def Server.user_keys (s : Server) : List Nat := s.users.map Prod.fst

/-- `accept_connection`: if the user exists, send a connect response, insert
a fresh connection at the user's address, register it with the bandwidth
monitor when enabled, and push a Connection event. -/
def Server.accept_connection (s : Server) (user_key : Nat) : Server :=
  match alookup user_key s.users with
  | none => s
  | some user =>
    if s.bandwidth_monitor_on then
      { s with
        outbox := s.outbox ++ [(user.address, Packet.connectResponse)],
        user_connections := (ainsert user.address (Connection.new user_key user.address)
          s.user_connections),
        bandwidth_clients := linsert user.address s.bandwidth_clients,
        incoming_events := s.incoming_events ++ [Event.connection user_key] }
    else
      { s with
        outbox := s.outbox ++ [(user.address, Packet.connectResponse)],
        user_connections := (ainsert user.address (Connection.new user_key user.address)
          s.user_connections),
        incoming_events := s.incoming_events ++ [Event.connection user_key] }

/-- `user_delete`: remove the user from the map; if its address had a live
connection, additionally clean up the connection, scope map, handshake
state, room memberships and bandwidth registration and return the user.
The outer `Option` is `none` when an internal `unwrap` panics (a cached
room key no longer in the room map). -/
def Server.user_delete (s : Server) (user_key : Nat) : Option (Option User × Server) :=
  match alookup user_key s.users with
  | none => some (none, s)
  | some user =>
    match alookup user.address s.user_connections with
    | none => some (none, { s with users := aerase user_key s.users })
    | some _ =>
      match user.roomKeys.foldlM
          (fun rs r => if (alookup r rs).isSome then
                         some (amodify r (fun room => room.unsubscribe_user user_key) rs)
                       else none)
          s.rooms with
      | none => none
      | some rooms2 =>
        if s.bandwidth_monitor_on then
          some (some user, { s with
            users := aerase user_key s.users,
            user_connections := aerase user.address s.user_connections,
            entity_scope_map := s.entity_scope_map.filter (fun q => decide (q.1.1 ≠ user_key)),
            handshake_addresses := lremove user.address s.handshake_addresses,
            rooms := rooms2,
            bandwidth_clients := lremove user.address s.bandwidth_clients })
        else
          some (some user, { s with
            users := aerase user_key s.users,
            user_connections := aerase user.address s.user_connections,
            entity_scope_map := s.entity_scope_map.filter (fun q => decide (q.1.1 ≠ user_key)),
            handshake_addresses := lremove user.address s.handshake_addresses,
            rooms := rooms2 })

/-- `user_disconnect`: delete the user and, when a user was actually torn
down, push a Disconnection event. -/
def Server.user_disconnect (s : Server) (user_key : Nat) : Option Server :=
  match s.user_delete user_key with
  | none => none
  | some (some user, s1) =>
    some { s1 with incoming_events := s1.incoming_events ++ [Event.disconnection user_key user] }
  | some (none, s1) => some s1

/-- `reject_connection`: send a reject response when the user exists, then
`user_delete`. -/
def Server.reject_connection (s : Server) (user_key : Nat) : Option Server :=
  match alookup user_key s.users with
  | some user =>
    match ({ s with outbox := s.outbox ++ [(user.address, Packet.rejectResponse)]
             }).user_delete user_key with
    | none => none
    | some pr => some pr.2
  | none =>
    match s.user_delete user_key with
    | none => none
    | some pr => some pr.2

/-- `send_message_inner`.  The second component is the panic message when
the call panics (the state component is then the state at panic time). -/
def Server.send_message_inner (s : Server) (user_key : Nat) (channel : Nat) (m : Msg) :
    Server × Option String :=
  if s.can_send_to_client channel = false then
    (s, some "Cannot send message to Client on this Channel")
  else
    match alookup user_key s.users with
    | none => (s, none)
    | some user =>
      match alookup user.address s.user_connections with
      | none => (s, none)
      | some conn =>
        if m.hasEntityProperties then
          if m.entities.all (fun e => conn.entityManager.entity_channel_is_open e) then
            ({ s with user_connections :=
                 (amodify user.address
                   (fun c => { c with messageManager := c.messageManager.send_message channel m })
                   s.user_connections) }, none)
          else
            ({ s with user_connections :=
                 (amodify user.address
                   (fun c => { c with entityManager :=
                       (c.entityManager.queue_entity_message m.entities channel m) })
                   s.user_connections) }, none)
        else
          ({ s with user_connections :=
               (amodify user.address
                 (fun c => { c with messageManager := c.messageManager.send_message channel m })
                 s.user_connections) }, none)

def broadcastGo (channel : Nat) (m : Msg) : List Nat → Server → Server × Option String
  | [], s => (s, none)
  | k :: ks, s =>
    match s.send_message_inner k channel m with
    | (s1, some msg) => (s1, some msg)
    | (s1, none) => broadcastGo channel m ks s1

/-- `broadcast_message_inner`: send to every user key. -/
def Server.broadcast_message_inner (s : Server) (channel : Nat) (m : Msg) :
    Server × Option String :=
  broadcastGo channel m s.user_keys s

/-- `room_broadcast_message`: send to every user key of the room. -/
def Server.room_broadcast_message (s : Server) (channel : Nat) (m : Msg) (room_key : Nat) :
    Server × Option String :=
  match alookup room_key s.rooms with
  | none => (s, none)
  | some room => broadcastGo channel m room.userKeys s

/-- `user` accessor: panics when no user exists for the key. -/
def Server.user (s : Server) (user_key : Nat) : Option String :=
  if (alookup user_key s.users).isSome then none
  else some "No User exists for given Key!"

/-- `user_mut` accessor: panics when no user exists for the key. -/
def Server.user_mut (s : Server) (user_key : Nat) : Option String :=
  if (alookup user_key s.users).isSome then none
  else some "No User exists for given Key!"

/-- `user_scope` accessor: panics when no user exists for the key. -/
def Server.user_scope (s : Server) (user_key : Nat) : Option String :=
  if (alookup user_key s.users).isSome then none
  else some "No User exists for given Key!"

/-- `make_room`: insert a fresh room, return its key. -/
def Server.make_room (s : Server) : Server × Nat :=
  ({ s with rooms := s.rooms ++ [(s.next_room_key, Room.new)],
            next_room_key := s.next_room_key + 1 }, s.next_room_key)

/-- `room_add_user`: when both keys are live, subscribe the user in the room
and cache the room on the user. -/
def Server.room_add_user (s : Server) (room_key user_key : Nat) : Server :=
  match alookup user_key s.users with
  | none => s
  | some _ =>
    match alookup room_key s.rooms with
    | none => s
    | some _ =>
      { s with rooms := amodify room_key (fun room => room.subscribe_user user_key) s.rooms,
               users := amodify user_key (fun u => u.cache_room room_key) s.users }

/-- `room_remove_user`: when both keys are live, unsubscribe and uncache. -/
def Server.room_remove_user (s : Server) (room_key user_key : Nat) : Server :=
  match alookup user_key s.users with
  | none => s
  | some _ =>
    match alookup room_key s.rooms with
    | none => s
    | some _ =>
      { s with rooms := amodify room_key (fun room => room.unsubscribe_user user_key) s.rooms,
               users := amodify user_key (fun u => u.uncache_room room_key) s.users }

/-- `room_add_entity`: add to the room set, then record the room on the
entity in the WorldRecord. -/
def Server.room_add_entity (s : Server) (room_key entity : Nat) : Server :=
  match alookup room_key s.rooms with
  | none => s
  | some _ =>
    { s with rooms := amodify room_key (fun room => room.add_entity entity) s.rooms,
             world_record := s.world_record.entity_enter_room entity room_key }

/-- `room_remove_entity`: remove from the room set and clear the entity's
room record (`entity_leave_rooms` takes no room key). -/
def Server.room_remove_entity (s : Server) (room_key entity : Nat) : Server :=
  match alookup room_key s.rooms with
  | none => s
  | some _ =>
    { s with rooms := amodify room_key (fun room => room.remove_entity entity) s.rooms,
             world_record := s.world_record.entity_leave_rooms entity }

/-- `room_remove_all_entities`: drain the room's entity set, clearing each
entity's room record. -/
def Server.room_remove_all_entities (s : Server) (room_key : Nat) : Server :=
  match alookup room_key s.rooms with
  | none => s
  | some room =>
    room.entities.foldl
      (fun acc e =>
        { acc with rooms := amodify room_key (fun r => r.remove_entity e) acc.rooms,
                   world_record := acc.world_record.entity_leave_rooms e })
      s

/-- `room_destroy`: remove all entities, then remove the room and uncache it
from every member user (`users.get_mut(user_key).unwrap()` panics — `none` —
when a member key is no longer live). -/
def Server.room_destroy (s : Server) (room_key : Nat) : Option (Server × Bool) :=
  match alookup room_key (s.room_remove_all_entities room_key).rooms with
  | none => some (s.room_remove_all_entities room_key, false)
  | some room =>
    match room.userKeys.foldlM
        (fun us k => if (alookup k us).isSome then
                       some (amodify k (fun u => u.uncache_room room_key) us)
                     else none)
        (s.room_remove_all_entities room_key).users with
    | none => none
    | some users2 =>
      some ({ s.room_remove_all_entities room_key with
              users := users2,
              rooms := aerase room_key (s.room_remove_all_entities room_key).rooms }, true)

/-- `user_scope_set_entity` (backing `user_scope(..).include/.exclude`). -/
def Server.user_scope_set_entity (s : Server) (user_key entity : Nat) (isContained : Bool) :
    Server :=
  { s with entity_scope_map := ainsert (user_key, entity) isContained s.entity_scope_map }

/-- `spawn_entity_init`: record a fresh entity in the WorldRecord. -/
def Server.spawn_entity_init (s : Server) (e : Nat) : Server :=
  { s with world_record := s.world_record.spawn_entity e }

/-- `insert_component`: panic on an unknown entity; if the entity already
contains the component kind, only replace the value in the world; otherwise
insert it into the world and enqueue an insert delta on every connection
whose EntityManager has the entity in scope. -/
def Server.insert_component (s : Server) (world : World) (e kind value : Nat) :
    (Server × World) × Option String :=
  if world.has_entity e = false then
    ((s, world), some "attempted to add component to non-existent entity")
  else if world.entity_contains e kind then
    ((s, world.insert_comp e kind value), none)
  else
    let world2 := world.insert_comp e kind value
    let conns := s.user_connections.map
      (fun p => if p.2.entityManager.scope_has_entity e then
                  (p.1, { p.2 with entityManager := p.2.entityManager.insert_component e kind })
                else p)
    (({ s with user_connections := conns }, world2), none)

/-! ### Scope diff: `update_entity_scopes` -/

/-- Drain one room's entity-removal queue: for each `(user, entity)` pair,
if the user has a live connection, despawn the entity from that
connection's EntityManager (unconditionally — the source flags this with
"What if the Entity shares another Room with this User? It shouldn't be
despawned!"). -/
def drainRemovalQueue (users : List (Nat × User)) :
    List (Nat × Nat) → List (Nat × Connection) → List (Nat × Connection)
  | [], conns => conns
  | (ru, re) :: rest, conns =>
    let conns2 :=
      match alookup ru users with
      | none => conns
      | some user =>
        if (alookup user.address conns).isSome then
          amodify user.address
            (fun c => { c with entityManager := c.entityManager.despawn_entity re }) conns
        else conns
    drainRemovalQueue users rest conns2

/-- One `(user, entity)` step of the scope diff. -/
def scopePairStep (users : List (Nat × User)) (scopeMap : List ((Nat × Nat) × Bool))
    (wr : WorldRecord) (world : World) (user_key e : Nat)
    (conns : List (Nat × Connection)) : List (Nat × Connection) :=
  if world.has_entity e then
    match alookup user_key users with
    | none => conns
    | some user =>
      match alookup user.address conns with
      | none => conns
      | some conn =>
        let currentlyInScope := conn.entityManager.scope_has_entity e
        let shouldBeInScope := (alookup (user_key, e) scopeMap).getD false
        if shouldBeInScope then
          if currentlyInScope then conns
          else
            amodify user.address
              (fun c =>
                let em1 := c.entityManager.spawn_entity e
                let em2 := (wr.component_kinds e).foldl
                  (fun em kind => em.insert_component e kind) em1
                { c with entityManager := em2 })
              conns
        else
          if currentlyInScope then
            amodify user.address
              (fun c => { c with entityManager := c.entityManager.despawn_entity e }) conns
          else conns
  else conns

/-- The room.users × room.entities double loop. -/
def scopeRoomPass (users : List (Nat × User)) (scopeMap : List ((Nat × Nat) × Bool))
    (wr : WorldRecord) (world : World) (userKeys entities : List Nat)
    (conns : List (Nat × Connection)) : List (Nat × Connection) :=
  userKeys.foldl
    (fun cs uk => entities.foldl (fun cs2 e => scopePairStep users scopeMap wr world uk e cs2) cs)
    conns

/-- One room of the scope pass: drain the room's removal queue (resetting
it), then run the scope diff over its user × entity pairs. -/
def updateScopesStep (users : List (Nat × User)) (scopeMap : List ((Nat × Nat) × Bool))
    (wr : WorldRecord) (world : World)
    (acc : List (Nat × Room) × List (Nat × Connection)) (rk : Nat) :
    List (Nat × Room) × List (Nat × Connection) :=
  match alookup rk acc.1 with
  | none => acc
  | some room =>
    (amodify rk (fun _ => { room with removalQueue := [] }) acc.1,
     scopeRoomPass users scopeMap wr world room.userKeys room.entities
       (drainRemovalQueue users room.removalQueue acc.2))

/-- `update_entity_scopes`: for every room in order, drain its removal queue
then run the scope diff over its user × entity pairs. -/
def Server.update_entity_scopes (s : Server) (world : World) : Server :=
  { s with
    rooms := ((s.rooms.map Prod.fst).foldl
      (updateScopesStep s.users s.entity_scope_map s.world_record world)
      (s.rooms, s.user_connections)).1,
    user_connections := ((s.rooms.map Prod.fst).foldl
      (updateScopesStep s.users s.entity_scope_map s.world_record world)
      (s.rooms, s.user_connections)).2 }

/-! ### maintain_socket and receive -/

/-- Dispatch of one inbound packet (the handshake / disconnect / error arms
of the `maintain_socket` recv loop). -/
def processPacket (s : Server) (address : Nat) (p : InPacket) : Option Server :=
  match p with
  | InPacket.malformed => some s
  | InPacket.ioError => some { s with incoming_events := s.incoming_events ++ [Event.error] }
  | InPacket.challengeRequest valid =>
    some (if valid then { s with outbox := s.outbox ++ [(address, Packet.challengeResponse)] }
          else s)
  | InPacket.connectRequest result =>
    match result with
    | HandshakeResult.invalid => some s
    | HandshakeResult.success authOpt =>
      if (alookup address s.user_connections).isSome then
        some { s with outbox := s.outbox ++ [(address, Packet.connectResponse)] }
      else
        match authOpt with
        | some payload =>
          some { s with
            users := s.users ++ [(s.next_user_key, User.new address)],
            next_user_key := s.next_user_key + 1,
            incoming_events := s.incoming_events
              ++ [Event.auth s.next_user_key payload] }
        | none =>
          some (({ s with users := s.users ++ [(s.next_user_key, User.new address)],
                          next_user_key := s.next_user_key + 1
                   }).accept_connection s.next_user_key)
  | InPacket.disconnect valid =>
    match alookup address s.user_connections with
    | none => some s
    | some conn => if valid then s.user_disconnect conn.userKey else some s

/-- The timeout-timer sweep: schedule a disconnect for every connection
whose `should_drop()` holds. -/
def timeoutSweep (s : Server) : Option Server :=
  if s.timeout_ringing then
    (s.user_connections.filterMap
        (fun p => if p.2.shouldDrop then some p.2.userKey else none)).foldlM
      (fun acc k => acc.user_disconnect k) { s with timeout_ringing := false }
  else some s

/-- The heartbeat-timer sweep: emit a heartbeat to every connection whose
`should_send_heartbeat()` holds. -/
def heartbeatSweep (s : Server) : Server :=
  if s.heartbeat_ringing then
    { s with
      heartbeat_ringing := false,
      outbox := (s.outbox ++
        (s.user_connections.filter (fun p => p.2.shouldSendHeartbeat)).map
          (fun p => (p.1, Packet.heartbeat))),
      user_connections := (s.user_connections.map
        (fun p => if p.2.shouldSendHeartbeat then (p.1, { p.2 with shouldSendHeartbeat := false })
                  else p)) }
  else s

/-- The ping-timer sweep. -/
def pingSweep (s : Server) : Server :=
  if s.ping_ringing then
    { s with
      ping_ringing := false,
      outbox := (s.outbox ++
        (s.user_connections.filter (fun p => p.2.shouldSendPing)).map
          (fun p => (p.1, Packet.ping))),
      user_connections := (s.user_connections.map
        (fun p => if p.2.shouldSendPing then (p.1, { p.2 with shouldSendPing := false })
                  else p)) }
  else s

/-- `maintain_socket`: timer sweeps, then drain the socket. -/
def Server.maintain_socket (s : Server) (inbox : List (Nat × InPacket)) : Option Server :=
  match timeoutSweep s with
  | none => none
  | some s1 =>
    let s2 := pingSweep (heartbeatSweep s1)
    inbox.foldlM (fun acc q => processPacket acc q.1 q.2) s2

/-- Drain each connection's MessageManager delivery queue into the events
list, in the given address order. -/
def drainMM : List Nat → List (Nat × Connection) → List Event →
    List (Nat × Connection) × List Event
  | [], conns, evs => (conns, evs)
  | a :: rest, conns, evs =>
    match alookup a conns with
    | none => drainMM rest conns evs
    | some c =>
      let evs2 := evs ++ c.messageManager.deliveryQueue.map
        (fun q => Event.message c.userKey q.1 q.2)
      let conns2 := amodify a
        (fun c2 => { c2 with messageManager := { c2.messageManager with deliveryQueue := [] } })
        conns
      drainMM rest conns2 evs2

/-- Drain each connection's tick buffer for the given server tick, in the
given address order (equal-tick messages released, newer retained,
older dropped). -/
def drainTB (t : Nat) : List Nat → List (Nat × Connection) → List Event →
    List (Nat × Connection) × List Event
  | [], conns, evs => (conns, evs)
  | a :: rest, conns, evs =>
    match alookup a conns with
    | none => drainTB t rest conns evs
    | some c =>
      let evs2 := evs ++ (c.tickBuffer.filter (fun q => q.1 == t)).map
        (fun q => Event.message c.userKey q.2.1 q.2.2)
      let conns2 := amodify a
        (fun c2 => { c2 with tickBuffer := c2.tickBuffer.filter (fun q => decide (t < q.1)) })
        conns
      drainTB t rest conns2 evs2

/-- `receive()`: maintain the socket, consume at most one server tick, drain
per-user messages in the given (randomized) address order, then — only when
a tick elapsed — drain tick-buffered messages for the current tick in that
same order and push a single Tick event.  `order` stands for the
`fastrand::shuffle`d address list. -/
def Server.receive (s : Server) (inbox : List (Nat × InPacket)) (order : List Nat) :
    Option (List Event × Server) :=
  match s.maintain_socket inbox with
  | none => none
  | some s1 =>
    match s1.tick_manager with
    | none =>
      some ((drainMM order s1.user_connections s1.incoming_events).2,
        { s1 with
          user_connections := (drainMM order s1.user_connections s1.incoming_events).1,
          incoming_events := [] })
    | some tm =>
      if (tm.recv_server_tick).1 then
        some ((drainTB (tm.recv_server_tick).2.server_tick order
            (drainMM order s1.user_connections s1.incoming_events).1
            (drainMM order s1.user_connections s1.incoming_events).2).2 ++ [Event.tick],
          { s1 with
            tick_manager := some (tm.recv_server_tick).2,
            user_connections := (drainTB (tm.recv_server_tick).2.server_tick order
              (drainMM order s1.user_connections s1.incoming_events).1
              (drainMM order s1.user_connections s1.incoming_events).2).1,
            incoming_events := [] })
      else
        some ((drainMM order s1.user_connections s1.incoming_events).2,
          { s1 with
            tick_manager := some (tm.recv_server_tick).2,
            user_connections := (drainMM order s1.user_connections s1.incoming_events).1,
            incoming_events := [] })

/-- Concatenation of per-address event lists in order. -/
def lflat (f : Nat → List Event) : List Nat → List Event
  | [] => []
  | a :: rest => f a ++ lflat f rest

/-- The message events a single connection's MessageManager drain yields. -/
def mmEventsOf (conns : List (Nat × Connection)) (a : Nat) : List Event :=
  match alookup a conns with
  | none => []
  | some c => c.messageManager.deliveryQueue.map (fun q => Event.message c.userKey q.1 q.2)

/-- The message events a single connection's tick-buffer drain yields for
server tick `t`. -/
def tbEventsOf (t : Nat) (conns : List (Nat × Connection)) (a : Nat) : List Event :=
  match alookup a conns with
  | none => []
  | some c => (c.tickBuffer.filter (fun q => q.1 == t)).map
      (fun q => Event.message c.userKey q.2.1 q.2.2)

/-- Number of Tick events in an event list. -/
def countTick : List Event → Nat
  | [] => 0
  | e :: rest => (if e = Event.tick then 1 else 0) + countTick rest

/-- Relates a server state to the result of a maintenance phase: the tick
manager is untouched and the events list has only grown, with no Tick
event appended. -/
def MExt (s s2 : Server) : Prop :=
  s2.tick_manager = s.tick_manager
  ∧ ∃ l, s2.incoming_events = s.incoming_events ++ l ∧ Event.tick ∉ l

/-! ### The public mutation surface as a step relation -/

/-- One public mutation of the server (the `connectRequest` op is the
`ClientConnectRequest` arm of `maintain_socket`; `updateScopes` is the
`update_entity_scopes` phase of `send_all_updates`). -/
inductive SOp
  | connectRequest (address : Nat) (result : HandshakeResult)
  | acceptConnection (user_key : Nat)
  | rejectConnection (user_key : Nat)
  | makeRoom
  | roomAddUser (room_key user_key : Nat)
  | roomRemoveUser (room_key user_key : Nat)
  | roomDestroy (room_key : Nat)
  | userDelete (user_key : Nat)
  | userDisconnect (user_key : Nat)
  | roomAddEntity (room_key entity : Nat)
  | roomRemoveEntity (room_key entity : Nat)
  | spawnEntityInit (entity : Nat)
  | scopeSet (user_key entity : Nat) (isContained : Bool)
  | updateScopes (world : World)
deriving DecidableEq

/-- Apply one mutation; `none` means the call panicked. -/
def sstep (op : SOp) (s : Server) : Option Server :=
  match op with
  | SOp.connectRequest address result => processPacket s address (InPacket.connectRequest result)
  | SOp.acceptConnection k => some (s.accept_connection k)
  | SOp.rejectConnection k => s.reject_connection k
  | SOp.makeRoom => some (s.make_room).1
  | SOp.roomAddUser r k => some (s.room_add_user r k)
  | SOp.roomRemoveUser r k => some (s.room_remove_user r k)
  | SOp.roomDestroy r => (s.room_destroy r).map Prod.fst
  | SOp.userDelete k => (s.user_delete k).map Prod.snd
  | SOp.userDisconnect k => s.user_disconnect k
  | SOp.roomAddEntity r e => some (s.room_add_entity r e)
  | SOp.roomRemoveEntity r e => some (s.room_remove_entity r e)
  | SOp.spawnEntityInit e => some (s.spawn_entity_init e)
  | SOp.scopeSet k e b => some (s.user_scope_set_entity k e b)
  | SOp.updateScopes w => some (s.update_entity_scopes w)

def runOps : List SOp → Server → Option Server
  | [], s => some s
  | op :: rest, s =>
    match sstep op s with
    | none => none
    | some s2 => runOps rest s2

/-! ### Invariants -/

/-- P2, room/user symmetry: a live room key is cached on a live user iff
the room's user-key set contains the user. -/
def RoomUserSym (s : Server) : Prop :=
  ∀ k u r room, alookup k s.users = some u → alookup r s.rooms = some room →
    (r ∈ u.roomKeys ↔ k ∈ room.userKeys)

/-- The inductive strengthening of `RoomUserSym`: all live keys and all
cross-referenced keys are below the generational counters (generational
keys are never reused). -/
def SInv (s : Server) : Prop :=
  RoomUserSym s
  ∧ (∀ k, (alookup k s.users).isSome = true → k < s.next_user_key)
  ∧ (∀ r, (alookup r s.rooms).isSome = true → r < s.next_room_key)
  ∧ (∀ r room, alookup r s.rooms = some room → ∀ j, j ∈ room.userKeys → j < s.next_user_key)
  ∧ (∀ k u, alookup k s.users = some u → ∀ j, j ∈ u.roomKeys → j < s.next_room_key)

/-- Relates a room lookup after removing user `k0` from some rooms to the
lookup before: same liveness, user sets equal off `k0` and shrunk only. -/
def RRel (k0 : Nat) (o1 o2 : Option Room) : Prop :=
  o1.isSome = o2.isSome
  ∧ ∀ a b, o1 = some a → o2 = some b →
      ((∀ j, j ≠ k0 → (j ∈ a.userKeys ↔ j ∈ b.userKeys)) ∧ ∀ j, j ∈ a.userKeys → j ∈ b.userKeys)

/-- Relates a user lookup after uncaching room `r0` from some users to the
lookup before: same liveness, cached rooms equal off `r0` and shrunk only. -/
def URel (r0 : Nat) (o1 o2 : Option User) : Prop :=
  o1.isSome = o2.isSome
  ∧ ∀ a b, o1 = some a → o2 = some b →
      ((∀ j, j ≠ r0 → (j ∈ a.roomKeys ↔ j ∈ b.roomKeys)) ∧ ∀ j, j ∈ a.roomKeys → j ∈ b.roomKeys)

/-- Room/entity symmetry: an entity is in a live room's entity set iff the
WorldRecord records the entity as belonging to that room. -/
def RoomEntitySym (s : Server) : Prop :=
  ∀ r room, alookup r s.rooms = some room →
    ∀ e, (e ∈ room.entities ↔ s.world_record.entity_is_in_room e r = true)

/-- The inductive strengthening of `RoomEntitySym` for sequences of entity
room moves: live room keys are bounded, recorded rooms are live, and every
entity is recorded in at most one room. -/
def EntInv (s : Server) : Prop :=
  RoomEntitySym s
  ∧ (∀ q ∈ s.rooms, q.1 < s.next_room_key)
  ∧ (∀ e r, r ∈ (alookup e s.world_record.entityRooms).getD [] →
       (alookup r s.rooms).isSome = true)
  ∧ (∀ e, ((alookup e s.world_record.entityRooms).getD []).length ≤ 1)

/-- Guard under which the amended entity-room symmetry claim quantifies:
only room creation, adding an entity that is currently in no room, and
removing an entity from a room that actually holds it. -/
def entGuard (op : SOp) (s : Server) : Bool :=
  match op with
  | SOp.makeRoom => true
  | SOp.roomAddEntity r e => ((alookup e s.world_record.entityRooms).getD []).isEmpty
  | SOp.roomRemoveEntity r e =>
    match alookup r s.rooms with
    | some room => decide (e ∈ room.entities)
    | none => true
  | _ => false

def entSeqOK : List SOp → Server → Bool
  | [], _ => true
  | op :: rest, s =>
    entGuard op s &&
      (match sstep op s with
       | some s2 => entSeqOK rest s2
       | none => true)

/-! ### Concrete scenario inputs -/

/-- Scenario for C1: a world holding entity `5` with no components. -/
def c1World : World := [(5, [])]

def c1Init : Server := Server.new [] false none

/-- Build: user key 0 at address 7 connected and accepted; rooms 0 and 1
both holding user 0 and entity 5; an explicit scope include for (0,5); one
scope pass (which spawns 5 on the connection); then entity 5 is removed
from room 0 only — queueing a `(0,5)` removal-queue entry — while room 1
still holds both the user and the entity. -/
def c1OpsPre : List SOp :=
  [SOp.connectRequest 7 (HandshakeResult.success none),
   SOp.makeRoom, SOp.makeRoom,
   SOp.roomAddUser 0 0, SOp.roomAddUser 1 0,
   SOp.spawnEntityInit 5,
   SOp.roomAddEntity 0 5, SOp.roomAddEntity 1 5,
   SOp.scopeSet 0 5 true,
   SOp.updateScopes c1World,
   SOp.roomRemoveEntity 0 5]

def c1Mid : Server := (runOps c1OpsPre c1Init).getD c1Init

def c1After : Server := c1Mid.update_entity_scopes c1World

/-- Scenario for C4: entity 5 enters rooms 0 and 1, then leaves room 0. -/
def c4Init : Server := Server.new [] false none

def c4Ops : List SOp :=
  [SOp.makeRoom, SOp.makeRoom,
   SOp.roomAddEntity 0 5, SOp.roomAddEntity 1 5,
   SOp.roomRemoveEntity 0 5]

def c4State : Server := (runOps c4Ops c4Init).getD c4Init

/-- A guarded entity-room op sequence (entity in at most one room at a
time, removals only of held entities). -/
def c4AmOps : List SOp :=
  [SOp.makeRoom, SOp.roomAddEntity 0 5, SOp.roomRemoveEntity 0 5, SOp.roomAddEntity 0 5]

def c4AmState : Server := (runOps c4AmOps c4Init).getD c4Init

/-- A mixed op sequence exercising the room/user symmetry invariant:
connect and accept two users, create rooms, add and remove memberships,
destroy a room and delete a user. -/
def c3Ops : List SOp :=
  [SOp.connectRequest 7 (HandshakeResult.success none),
   SOp.connectRequest 8 (HandshakeResult.success none),
   SOp.makeRoom, SOp.makeRoom,
   SOp.roomAddUser 0 0, SOp.roomAddUser 0 1, SOp.roomAddUser 1 0,
   SOp.roomRemoveUser 0 1,
   SOp.roomDestroy 1,
   SOp.userDelete 1]

def c3State : Server := (runOps c3Ops c1Init).getD c1Init

/-- A small server used to instantiate theorems: channel 0 may send to
clients, channel 1 may not; user 0 at address 9 has a live connection;
user 1 at address 8 has none (never accepted). -/
def demoServer : Server :=
  { Server.new [(0, true), (1, false)] false none with
    next_user_key := 2,
    users := [(0, { address := 9, roomKeys := [] }), (1, { address := 8, roomKeys := [] })],
    user_connections := [(9, Connection.new 0 9)] }

/-- A message with entity properties, referencing entity 4. -/
def demoMsg : Msg := { hasEntityProperties := true, entities := [4], payload := 0 }

/-- A connection with one pending delivered message and one tick-buffered
message for tick 6. -/
def c6Conn : Connection :=
  { Connection.new 0 9 with
    messageManager := { sendQueue := [], deliveryQueue := [(0, demoMsg)] },
    tickBuffer := [(6, 1, demoMsg)] }

/-- A server one pending tick away from tick 6, with user 0 connected. -/
def c6Server : Server :=
  { Server.new [] false (some { serverTick := 5, ticksPending := 1 }) with
    next_user_key := 1,
    users := [(0, User.new 9)],
    user_connections := [(9, c6Conn)] }

def c6Out : List Event × Server := (c6Server.receive [] [9]).getD ([], c6Server)

/-! ### Basic lemmas about the list primitives -/

theorem alookup_amodify_self {κ α : Type} [DecidableEq κ] (k : κ) (f : α → α) :
    ∀ l : List (κ × α), alookup k (amodify k f l) = (alookup k l).map f := by
  intro l
  induction l with
  | nil => rfl
  | cons p rest ih =>
    by_cases hp : p.1 = k
    · simp [amodify, alookup, hp]
    · simp [amodify, alookup, hp, ih]

theorem alookup_amodify_ne {κ α : Type} [DecidableEq κ] {j k : κ} (h : j ≠ k) (f : α → α) :
    ∀ l : List (κ × α), alookup j (amodify k f l) = alookup j l := by
  intro l
  induction l with
  | nil => rfl
  | cons p rest ih =>
    by_cases hp : p.1 = k
    · have hkj : k ≠ j := fun hh => h hh.symm
      simp [amodify, alookup, hp, hkj, ih]
    · by_cases hj : p.1 = j
      · simp [amodify, alookup, hp, hj, h]
      · simp [amodify, alookup, hp, hj, ih]

theorem alookup_mem {κ α : Type} [DecidableEq κ] {k : κ} {v : α} :
    ∀ {l : List (κ × α)}, alookup k l = some v → (k, v) ∈ l := by
  intro l
  induction l with
  | nil => intro h; simp [alookup] at h
  | cons p rest ih =>
    intro h
    obtain ⟨a, b⟩ := p
    by_cases hp : a = k
    · rw [alookup, if_pos hp] at h
      injection h with h2
      subst hp
      subst h2
      exact List.mem_cons_self _ _
    · rw [alookup, if_neg hp] at h
      exact List.mem_cons_of_mem _ (ih h)

theorem mem_amodify {κ α : Type} [DecidableEq κ] {k : κ} {f : α → α} :
    ∀ {l : List (κ × α)} {p : κ × α}, p ∈ amodify k f l →
      ∃ q, q ∈ l ∧ p.1 = q.1 ∧ ((q.1 = k ∧ p.2 = f q.2) ∨ (q.1 ≠ k ∧ p.2 = q.2)) := by
  intro l
  induction l with
  | nil => intro p h; simp [amodify] at h
  | cons q rest ih =>
    intro p h
    rw [amodify] at h
    rcases List.mem_cons.mp h with h1 | h1
    · by_cases hq : q.1 = k
      · rw [if_pos hq] at h1
        exact ⟨q, List.mem_cons_self _ _, by rw [h1], Or.inl ⟨hq, by rw [h1]⟩⟩
      · rw [if_neg hq] at h1
        exact ⟨q, List.mem_cons_self _ _, by rw [h1], Or.inr ⟨hq, by rw [h1]⟩⟩
    · obtain ⟨q2, hq2, h2, h3⟩ := ih h1
      exact ⟨q2, List.mem_cons_of_mem _ hq2, h2, h3⟩

theorem mem_aerase {κ α : Type} [DecidableEq κ] {k : κ} :
    ∀ {l : List (κ × α)} {p : κ × α}, p ∈ aerase k l → p ∈ l ∧ p.1 ≠ k := by
  intro l
  induction l with
  | nil => intro p h; simp [aerase] at h
  | cons q rest ih =>
    intro p h
    rw [aerase] at h
    by_cases hq : q.1 = k
    · rw [if_pos hq] at h
      obtain ⟨h1, h2⟩ := ih h
      exact ⟨List.mem_cons_of_mem _ h1, h2⟩
    · rw [if_neg hq] at h
      rcases List.mem_cons.mp h with h1 | h1
      · subst h1
        exact ⟨List.mem_cons_self _ _, hq⟩
      · obtain ⟨h1, h2⟩ := ih h1
        exact ⟨List.mem_cons_of_mem _ h1, h2⟩

theorem mem_linsert {x j : Nat} : ∀ {l : List Nat}, (j ∈ linsert x l ↔ j = x ∨ j ∈ l) := by
  intro l
  unfold linsert
  by_cases hx : x ∈ l
  · rw [if_pos hx]
    constructor
    · exact Or.inr
    · rintro (rfl | h)
      · exact hx
      · exact h
  · rw [if_neg hx]
    simp [List.mem_append, or_comm]

theorem mem_lremove {x j : Nat} : ∀ {l : List Nat}, (j ∈ lremove x l ↔ j ∈ l ∧ j ≠ x) := by
  intro l
  induction l with
  | nil => simp [lremove]
  | cons y rest ih =>
    rw [lremove]
    by_cases hy : y = x
    · rw [if_pos hy]
      subst hy
      rw [ih]
      constructor
      · exact fun h => ⟨List.mem_cons_of_mem _ h.1, h.2⟩
      · rintro ⟨h1, h2⟩
        rcases List.mem_cons.mp h1 with h3 | h3
        · exact absurd h3 h2
        · exact ⟨h3, h2⟩
    · rw [if_neg hy]
      constructor
      · intro h
        rcases List.mem_cons.mp h with h1 | h1
        · subst h1
          exact ⟨List.mem_cons_self _ _, hy⟩
        · obtain ⟨h2, h3⟩ := ih.mp h1
          exact ⟨List.mem_cons_of_mem _ h2, h3⟩
      · rintro ⟨h1, h2⟩
        rcases List.mem_cons.mp h1 with h3 | h3
        · subst h3
          exact List.mem_cons_self _ _
        · exact List.mem_cons_of_mem _ (ih.mpr ⟨h3, h2⟩)

theorem alookup_ainsert_self {κ α : Type} [DecidableEq κ] (k : κ) (v : α) (l : List (κ × α)) :
    alookup k (ainsert k v l) = some v := by
  simp [ainsert, alookup]

theorem foldl_invariant {α β : Type} (P : β → Prop) (f : β → α → β) :
    ∀ (l : List α) (b : β), P b → (∀ b2 x, x ∈ l → P b2 → P (f b2 x)) → P (l.foldl f b) := by
  intro l
  induction l with
  | nil => intro b hb _; exact hb
  | cons x rest ih =>
    intro b hb hstep
    exact ih (f b x) (hstep b x (List.mem_cons_self x rest) hb)
      (fun b2 y hy => hstep b2 y (List.mem_cons_of_mem x hy))

theorem foldlM_invariant {α β : Type} (P : β → Prop) (f : β → α → Option β) :
    ∀ (l : List α) (b b2 : β), List.foldlM f b l = some b2 → P b →
      (∀ c x c2, x ∈ l → f c x = some c2 → P c → P c2) → P b2 := by
  intro l
  induction l with
  | nil =>
    intro b b2 h hb _
    simp [List.foldlM] at h
    rw [← h]
    exact hb
  | cons x rest ih =>
    intro b b2 h hb hstep
    rw [List.foldlM] at h
    cases hfx : f b x with
    | none => rw [hfx] at h; simp at h
    | some c =>
      rw [hfx] at h
      simp only [Option.bind_eq_bind, Option.some_bind] at h
      exact ih c b2 h (hstep b x c (List.mem_cons_self x rest) hfx hb)
        (fun d y d2 hy => hstep d y d2 (List.mem_cons_of_mem x hy))

theorem alookup_map_ite {κ α : Type} [DecidableEq κ] (cond : α → Bool) (g : α → α) (a : κ) :
    ∀ l : List (κ × α),
      alookup a (l.map (fun p => if cond p.2 then (p.1, g p.2) else p))
        = (alookup a l).map (fun c => if cond c then g c else c) := by
  intro l
  induction l with
  | nil => rfl
  | cons p rest ih =>
    by_cases hc : cond p.2
    · by_cases ha : p.1 = a
      · simp [alookup, hc, ha]
      · simp [alookup, hc, ha, ih]
    · by_cases ha : p.1 = a
      · simp [alookup, hc, ha]
      · simp [alookup, hc, ha, ih]

theorem alookup_append {κ α : Type} [DecidableEq κ] (k : κ) :
    ∀ l1 l2 : List (κ × α), alookup k (l1 ++ l2)
      = match alookup k l1 with
        | some v => some v
        | none => alookup k l2 := by
  intro l1 l2
  induction l1 with
  | nil => rfl
  | cons p rest ih =>
    by_cases hp : p.1 = k
    · simp [alookup, hp]
    · simp [alookup, hp, ih]

theorem mem_mem_length_le_one {l : List Nat} {a b : Nat}
    (ha : a ∈ l) (hb : b ∈ l) (h : l.length ≤ 1) : a = b := by
  cases l with
  | nil => cases ha
  | cons x rest =>
    cases rest with
    | nil =>
      rw [List.mem_singleton] at ha hb
      rw [ha, hb]
    | cons y rest2 => simp at h

theorem alookup_isSome_amodify {κ α : Type} [DecidableEq κ] (j k : κ) (f : α → α)
    (l : List (κ × α)) :
    (alookup j (amodify k f l)).isSome = (alookup j l).isSome := by
  by_cases hj : j = k
  · subst hj
    rw [alookup_amodify_self]
    cases alookup j l <;> rfl
  · rw [alookup_amodify_ne hj]

theorem isEmpty_eq_nil {l : List Nat} (h : l.isEmpty = true) : l = [] := by
  cases l
  · rfl
  · simp [List.isEmpty] at h

/-- When the channel permits sending to clients, `send_message_inner` never
panics. -/
theorem send_message_inner_snd_none (s : Server) (k channel : Nat) (m : Msg)
    (hc : s.can_send_to_client channel = true) :
    (s.send_message_inner k channel m).2 = none := by
  unfold Server.send_message_inner
  rw [if_neg (by simp [hc])]
  split
  · rfl
  · split
    · rfl
    · split
      · split
        · rfl
        · rfl
      · rfl

/-! ### Claim theorems -/

/-- Claim C9: `accept_connection` called with a UserKey that is not in the
users map is a silent no-op — the state (connections, outbox, events
included) is unchanged — while the accessors `user`, `user_mut` and
`user_scope` panic on an unknown key. -/
theorem accept_connection_unknown_key_noop (s : Server) (k : Nat)
    (h : alookup k s.users = none) :
    s.accept_connection k = s
    ∧ s.user k = some "No User exists for given Key!"
    ∧ s.user_mut k = some "No User exists for given Key!"
    ∧ s.user_scope k = some "No User exists for given Key!" := by
  refine ⟨?_, ?_, ?_, ?_⟩
  · simp [Server.accept_connection, h]
  · simp [Server.user, h]
  · simp [Server.user_mut, h]
  · simp [Server.user_scope, h]

theorem accept_connection_unknown_key_noop_witness :
    demoServer.accept_connection 5 = demoServer
    ∧ demoServer.user 5 = some "No User exists for given Key!"
    ∧ demoServer.user_mut 5 = some "No User exists for given Key!"
    ∧ demoServer.user_scope 5 = some "No User exists for given Key!" :=
  accept_connection_unknown_key_noop demoServer 5 (by decide)

/-- Claim C8: `user_delete` removes a live user from the users map even
when its address has no connection, but then returns `none` and performs no
secondary cleanup: the EntityScopeMap, the handshake per-address state, the
rooms and the bandwidth registry are untouched, and `user_disconnect`
pushes no Disconnection event for such a user. -/
theorem user_delete_without_connection (s : Server) (k : Nat) (u : User)
    (h1 : alookup k s.users = some u)
    (h2 : alookup u.address s.user_connections = none) :
    s.user_delete k = some (none, { s with users := aerase k s.users })
    ∧ s.user_disconnect k = some { s with users := aerase k s.users } := by
  have hd : s.user_delete k = some (none, { s with users := aerase k s.users }) := by
    simp [Server.user_delete, h1, h2]
  exact ⟨hd, by simp [Server.user_disconnect, hd]⟩

theorem user_delete_without_connection_witness :
    demoServer.user_delete 1 = some (none, { demoServer with users := aerase 1 demoServer.users })
    ∧ demoServer.user_disconnect 1
      = some { demoServer with users := aerase 1 demoServer.users } :=
  user_delete_without_connection demoServer 1 { address := 8, roomKeys := [] }
    (by decide) (by decide)

/-- Claim C5: a ClientConnectRequest whose handshake verifies successfully
but whose source address already has a connection only re-sends a
ConnectResponse: no new User is inserted, no Connection is created, no
Connection or Auth event is pushed — the state is unchanged apart from the
response packet. -/
theorem connect_request_idempotent (s : Server) (address : Nat) (authOpt : Option Nat)
    (h : (alookup address s.user_connections).isSome = true) :
    processPacket s address (InPacket.connectRequest (HandshakeResult.success authOpt))
      = some { s with outbox := s.outbox ++ [(address, Packet.connectResponse)] } := by
  simp [processPacket, h]

theorem connect_request_idempotent_witness :
    processPacket demoServer 9 (InPacket.connectRequest (HandshakeResult.success none))
      = some { demoServer with outbox := demoServer.outbox ++ [(9, Packet.connectResponse)] } :=
  connect_request_idempotent demoServer 9 none (by decide)

/-- Claim C7: `send_message_inner` (hence `send_message`) panics with
exactly "Cannot send message to Client on this Channel" — leaving the state
unchanged, before any user lookup — if and only if the channel's registered
metadata does not permit sending to clients; `broadcast_message` and
`room_broadcast_message` route through the same inner function and panic
the same way on their first recipient. -/
theorem send_message_direction_panics (s : Server) (k channel r : Nat) (m : Msg) :
    (s.send_message_inner k channel m
        = (s, some "Cannot send message to Client on this Channel")
      ↔ s.can_send_to_client channel = false)
    ∧ (s.can_send_to_client channel = false → s.user_keys ≠ [] →
        s.broadcast_message_inner channel m
          = (s, some "Cannot send message to Client on this Channel"))
    ∧ (s.can_send_to_client channel = false → ∀ room, alookup r s.rooms = some room →
        room.userKeys ≠ [] →
        s.room_broadcast_message channel m r
          = (s, some "Cannot send message to Client on this Channel")) := by
  have hpanic : ∀ j, s.can_send_to_client channel = false →
      s.send_message_inner j channel m
        = (s, some "Cannot send message to Client on this Channel") := by
    intro j hc
    unfold Server.send_message_inner
    rw [if_pos hc]
  refine ⟨⟨?_, hpanic k⟩, ?_, ?_⟩
  · intro h
    cases hcs : s.can_send_to_client channel
    · rfl
    · have hn := send_message_inner_snd_none s k channel m hcs
      rw [h] at hn
      simp at hn
  · intro hc hne
    obtain ⟨j, ks, hks⟩ := List.exists_cons_of_ne_nil hne
    unfold Server.broadcast_message_inner
    rw [hks]
    simp [broadcastGo, hpanic j hc]
  · intro hc room hroom hne
    obtain ⟨j, ks, hks⟩ := List.exists_cons_of_ne_nil hne
    simp only [Server.room_broadcast_message, hroom]
    rw [hks]
    simp [broadcastGo, hpanic j hc]

theorem send_message_direction_panics_witness :
    demoServer.broadcast_message_inner 1 demoMsg
      = (demoServer, some "Cannot send message to Client on this Channel") :=
  (send_message_direction_panics demoServer 0 1 0 demoMsg).2.1 (by decide) (by decide)

/-- Claim C2: for a send_message call on a permitted channel to a live user
with a live connection, where the message has entity properties: when every
referenced entity has an open entity channel on the connection the message
is enqueued in the connection's MessageManager on the given channel (and
the EntityManager untouched); otherwise it is parked via
`queue_entity_message` keyed by the referenced entities and nothing is
enqueued in the MessageManager. -/
theorem send_message_entity_dependency_gating (s : Server) (k channel : Nat) (m : Msg)
    (u : User) (conn : Connection)
    (hch : s.can_send_to_client channel = true)
    (hu : alookup k s.users = some u)
    (hc : alookup u.address s.user_connections = some conn)
    (hm : m.hasEntityProperties = true) :
    (m.entities.all (fun e => conn.entityManager.entity_channel_is_open e) = true →
      (s.send_message_inner k channel m).2 = none
      ∧ alookup u.address (s.send_message_inner k channel m).1.user_connections
        = some { conn with messageManager :=
            { conn.messageManager with
              sendQueue := conn.messageManager.sendQueue ++ [(channel, m)] } })
    ∧ (m.entities.all (fun e => conn.entityManager.entity_channel_is_open e) = false →
      (s.send_message_inner k channel m).2 = none
      ∧ alookup u.address (s.send_message_inner k channel m).1.user_connections
        = some { conn with entityManager :=
            { conn.entityManager with
              pendingEntityMessages :=
                conn.entityManager.pendingEntityMessages ++ [(m.entities, channel, m)] } }) := by
  constructor
  · intro hall
    have hall2 : ∀ x ∈ m.entities, conn.entityManager.entity_channel_is_open x = true :=
      List.all_eq_true.mp hall
    constructor
    · simp [Server.send_message_inner, hch, hu, hc, hm]
      rw [if_pos hall2]
    · simp [Server.send_message_inner, hch, hu, hc, hm]
      rw [if_pos hall2]
      simp [alookup_amodify_self, hc, MessageManager.send_message]
  · intro hall
    have hall2 : ¬ ∀ x ∈ m.entities, conn.entityManager.entity_channel_is_open x = true := by
      rw [← List.all_eq_true, hall]
      simp
    constructor
    · simp [Server.send_message_inner, hch, hu, hc, hm]
      rw [if_neg hall2]
    · simp [Server.send_message_inner, hch, hu, hc, hm]
      rw [if_neg hall2]
      simp [alookup_amodify_self, hc, EntityManager.queue_entity_message]

theorem send_message_entity_dependency_gating_witness :
    (demoServer.send_message_inner 0 0 demoMsg).2 = none :=
  ((send_message_entity_dependency_gating demoServer 0 0 demoMsg
      { address := 9, roomKeys := [] } (Connection.new 0 9)
      (by decide) (by decide) (by decide) (by decide)).2 (by decide)).1

/-- Claim C10: `insert_component` on an entity that already contains the
component kind replaces the value in the world and enqueues no delta on any
connection's EntityManager (even in-scope ones); when the kind was not
previously present the world gains it and an insert delta is enqueued on
exactly the connections whose EntityManager has the entity in scope. -/
theorem insert_component_existing_kind_no_replication (s : Server) (world : World)
    (e kind value : Nat) (he : world.has_entity e = true) :
    (world.entity_contains e kind = true →
      s.insert_component world e kind value = ((s, world.insert_comp e kind value), none))
    ∧ (world.entity_contains e kind = false →
      (s.insert_component world e kind value).2 = none
      ∧ (s.insert_component world e kind value).1.2 = world.insert_comp e kind value
      ∧ ∀ a, alookup a (s.insert_component world e kind value).1.1.user_connections
          = (alookup a s.user_connections).map
              (fun c => if c.entityManager.scope_has_entity e then
                          { c with entityManager := c.entityManager.insert_component e kind }
                        else c))
    ∧ World.get_comp (world.insert_comp e kind value) e kind = some value := by
  refine ⟨?_, ?_, ?_⟩
  · intro hcont
    simp [Server.insert_component, he, hcont]
  · intro hcont
    refine ⟨?_, ?_, ?_⟩
    · simp [Server.insert_component, he, hcont]
    · simp [Server.insert_component, he, hcont]
    · intro a
      have heq : (s.insert_component world e kind value).1.1.user_connections
          = s.user_connections.map
              (fun p => if p.2.entityManager.scope_has_entity e then
                          (p.1, { p.2 with entityManager := p.2.entityManager.insert_component e kind })
                        else p) := by
        simp [Server.insert_component, he, hcont]
      rw [heq]
      exact alookup_map_ite (fun c => c.entityManager.scope_has_entity e)
        (fun c => { c with entityManager := c.entityManager.insert_component e kind }) a
        s.user_connections
  · unfold World.get_comp World.insert_comp
    rw [alookup_amodify_self]
    cases hw : alookup e world with
    | none => simp [World.has_entity, hw] at he
    | some comps => simp [alookup_ainsert_self]

theorem insert_component_existing_kind_no_replication_witness :
    (demoServer.insert_component c1World 5 2 11).2 = none :=
  ((insert_component_existing_kind_no_replication demoServer c1World 5 2 11
      (by decide)).2.1 (by decide)).1

/-- Claim C1 (code bug, flagged by the source's own comment "What if the
Entity shares another Room with this User? It shouldn't be despawned!"):
in the reachable state `c1Mid`, user 0 (address 7, live connection) and
entity 5 share room 1, the world holds entity 5, the EntityScopeMap entry
for (0,5) is present and `true`, and entity 5 is currently in scope — per
the claim that pair gets neither a spawn nor a despawn.  Yet one pass of
`update_entity_scopes` emits a despawn followed by a re-spawn, because room
0's entity-removal queue still holds the pair `(0,5)` from
`room_remove_entity` and the drain despawns unconditionally. -/
theorem removal_queue_despawns_stable_pair :
    runOps c1OpsPre c1Init = some c1Mid
    ∧ alookup (0, 5) c1Mid.entity_scope_map = some true
    ∧ c1World.has_entity 5 = true
    ∧ (alookup 0 c1Mid.users).map User.address = some 7
    ∧ (alookup 7 c1Mid.user_connections).map
        (fun c => c.entityManager.scope_has_entity 5) = some true
    ∧ (alookup 1 c1Mid.rooms).map
        (fun room => (decide (0 ∈ room.userKeys), decide (5 ∈ room.entities)))
      = some (true, true)
    ∧ (alookup 0 c1Mid.rooms).map Room.removalQueue = some [(0, 5)]
    ∧ (alookup 7 c1Mid.user_connections).map (fun c => c.entityManager.opLog)
      = some [EMOp.spawnEntity 5]
    ∧ (alookup 7 c1After.user_connections).map (fun c => c.entityManager.opLog)
      = some [EMOp.spawnEntity 5, EMOp.despawnEntity 5, EMOp.spawnEntity 5] := by
  decide

/-- Claim C4 counterexample: entity 5 is added to rooms 0 and 1 and then
removed from room 0 only.  Afterwards room 1's entity set still holds 5,
but the WorldRecord no longer records 5 as belonging to room 1 — because
`entity_leave_rooms` receives no room key and clears the entity's whole
room record — refuting the claimed two-sided symmetry ("removing E from one
room leaves its membership in every other room intact on both sides"). -/
theorem room_entity_symmetry_counterexample :
    runOps c4Ops c4Init = some c4State
    ∧ (alookup 1 c4State.rooms).map (fun room => decide (5 ∈ room.entities)) = some true
    ∧ c4State.world_record.entity_is_in_room 5 1 = false := by
  decide

theorem entInv_make_room (s : Server) (h : EntInv s) : EntInv (s.make_room).1 := by
  obtain ⟨hsym, hb1, hb2, hb3⟩ := h
  have hnlive : alookup s.next_room_key s.rooms = none := by
    cases hn : alookup s.next_room_key s.rooms with
    | none => rfl
    | some v =>
      have := hb1 _ (alookup_mem hn)
      simp at this
  refine ⟨?_, ?_, ?_, ?_⟩
  · intro r room hr e
    simp only [Server.make_room] at hr
    rw [alookup_append] at hr
    cases h0 : alookup r s.rooms with
    | some v =>
      rw [h0] at hr
      injection hr with hv
      exact hv ▸ hsym r v h0 e
    | none =>
      rw [h0] at hr
      by_cases hrn : s.next_room_key = r
      · rw [alookup, if_pos hrn] at hr
        injection hr with hv
        rw [← hv]
        constructor
        · intro he
          simp [Room.new] at he
        · intro hin
          unfold WorldRecord.entity_is_in_room at hin
          have hmem := of_decide_eq_true hin
          have := hb2 e r hmem
          rw [h0] at this
          simp at this
      · rw [alookup, if_neg hrn, alookup] at hr
        cases hr
  · intro q hq
    simp only [Server.make_room] at hq ⊢
    rcases List.mem_append.mp hq with h1 | h1
    · exact Nat.lt_trans (hb1 q h1) (Nat.lt_succ_self _)
    · rw [List.mem_singleton] at h1
      rw [h1]
      exact Nat.lt_succ_self _
  · intro e r hr
    simp only [Server.make_room] at hr ⊢
    have hlive := hb2 e r hr
    rw [alookup_append]
    cases h0 : alookup r s.rooms with
    | some v => simp
    | none => rw [h0] at hlive; simp at hlive
  · intro e
    exact hb3 e

theorem entInv_add_entity (s : Server) (r e : Nat) (h : EntInv s)
    (hg : (alookup e s.world_record.entityRooms).getD [] = []) :
    EntInv (s.room_add_entity r e) := by
  obtain ⟨hsym, hb1, hb2, hb3⟩ := h
  cases hr0 : alookup r s.rooms with
  | none =>
    simp only [Server.room_add_entity, hr0]
    exact ⟨hsym, hb1, hb2, hb3⟩
  | some room0 =>
    have hs2 : s.room_add_entity r e
        = { s with rooms := amodify r (fun room => room.add_entity e) s.rooms,
                   world_record := s.world_record.entity_enter_room e r } := by
      simp only [Server.room_add_entity, hr0]
    rw [hs2]
    have hA1 : (alookup e (s.world_record.entity_enter_room e r).entityRooms).getD [] = [r] := by
      unfold WorldRecord.entity_enter_room
      cases h0 : alookup e s.world_record.entityRooms with
      | none => simp [h0, alookup_append, alookup]
      | some l =>
        have hl : l = [] := by
          rw [h0] at hg
          exact hg
        simp [h0, alookup_amodify_self, hl, linsert]
    have hA2 : ∀ e2, e2 ≠ e →
        alookup e2 (s.world_record.entity_enter_room e r).entityRooms
          = alookup e2 s.world_record.entityRooms := by
      intro e2 hne
      unfold WorldRecord.entity_enter_room
      cases h0 : alookup e s.world_record.entityRooms with
      | none =>
        simp only [h0, Option.isSome_none, Bool.false_eq_true, if_false]
        rw [alookup_append]
        cases h1 : alookup e2 s.world_record.entityRooms with
        | some v => rfl
        | none =>
          have hne2 : e ≠ e2 := fun hh => hne hh.symm
          simp [alookup, hne2]
      | some l =>
        simp only [h0, Option.isSome_some, if_true]
        exact alookup_amodify_ne hne _ _
    have hions : ∀ e2 r2, e2 ≠ e →
        (s.world_record.entity_enter_room e r).entity_is_in_room e2 r2
          = s.world_record.entity_is_in_room e2 r2 := by
      intro e2 r2 hne
      unfold WorldRecord.entity_is_in_room
      rw [hA2 e2 hne]
    have hine : ∀ r2, (s.world_record.entity_enter_room e r).entity_is_in_room e r2
        = decide (r2 = r) := by
      intro r2
      unfold WorldRecord.entity_is_in_room
      rw [hA1]
      simp
    refine ⟨?_, ?_, ?_, ?_⟩
    · intro r2 room2 hr2 e2
      by_cases hrr : r2 = r
      · subst hrr
        rw [alookup_amodify_self, hr0] at hr2
        injection hr2 with hroom2
        rw [← hroom2]
        by_cases hee : e2 = e
        · subst hee
          rw [hine r2]
          apply iff_of_true
          · exact mem_linsert.mpr (Or.inl rfl)
          · simp
        · rw [hions e2 r2 hee]
          constructor
          · intro hm
            rcases mem_linsert.mp hm with h1 | h1
            · exact absurd h1 hee
            · exact (hsym r2 room0 hr0 e2).mp h1
          · intro hin
            exact mem_linsert.mpr (Or.inr ((hsym r2 room0 hr0 e2).mpr hin))
      · rw [alookup_amodify_ne hrr] at hr2
        by_cases hee : e2 = e
        · subst hee
          rw [hine r2]
          apply iff_of_false
          · intro hm
            have h1 := (hsym r2 room2 hr2 e2).mp hm
            unfold WorldRecord.entity_is_in_room at h1
            have h2 := of_decide_eq_true h1
            rw [hg] at h2
            cases h2
          · simp [hrr]
        · rw [hions e2 r2 hee]
          exact hsym r2 room2 hr2 e2
    · intro q hq
      obtain ⟨q0, hq0, hfst, _⟩ := mem_amodify hq
      rw [hfst]
      exact hb1 q0 hq0
    · intro e2 r2 hmem
      by_cases hee : e2 = e
      · subst hee
        rw [hA1] at hmem
        rw [List.mem_singleton] at hmem
        subst hmem
        rw [alookup_isSome_amodify, hr0]
        rfl
      · rw [hA2 e2 hee] at hmem
        rw [alookup_isSome_amodify]
        exact hb2 e2 r2 hmem
    · intro e2
      by_cases hee : e2 = e
      · subst hee
        rw [hA1]
        simp
      · rw [hA2 e2 hee]
        exact hb3 e2

theorem entInv_remove_entity (s : Server) (r e : Nat) (h : EntInv s)
    (hg : ∀ room, alookup r s.rooms = some room → e ∈ room.entities) :
    EntInv (s.room_remove_entity r e) := by
  obtain ⟨hsym, hb1, hb2, hb3⟩ := h
  cases hr0 : alookup r s.rooms with
  | none =>
    simp only [Server.room_remove_entity, hr0]
    exact ⟨hsym, hb1, hb2, hb3⟩
  | some room0 =>
    have hge : e ∈ room0.entities := hg room0 hr0
    have hs2 : s.room_remove_entity r e
        = { s with rooms := amodify r (fun room => room.remove_entity e) s.rooms,
                   world_record := s.world_record.entity_leave_rooms e } := by
      simp only [Server.room_remove_entity, hr0]
    rw [hs2]
    have hA1 : (alookup e (s.world_record.entity_leave_rooms e).entityRooms).getD [] = [] := by
      unfold WorldRecord.entity_leave_rooms
      rw [alookup_amodify_self]
      cases h0 : alookup e s.world_record.entityRooms <;> simp
    have hA2 : ∀ e2, e2 ≠ e →
        alookup e2 (s.world_record.entity_leave_rooms e).entityRooms
          = alookup e2 s.world_record.entityRooms := by
      intro e2 hne
      unfold WorldRecord.entity_leave_rooms
      exact alookup_amodify_ne hne _ _
    have hions : ∀ e2 r2, e2 ≠ e →
        (s.world_record.entity_leave_rooms e).entity_is_in_room e2 r2
          = s.world_record.entity_is_in_room e2 r2 := by
      intro e2 r2 hne
      unfold WorldRecord.entity_is_in_room
      rw [hA2 e2 hne]
    have hinre : ∀ r2, (s.world_record.entity_leave_rooms e).entity_is_in_room e r2 = false := by
      intro r2
      unfold WorldRecord.entity_is_in_room
      rw [hA1]
      simp
    have hrin : r ∈ (alookup e s.world_record.entityRooms).getD [] := by
      have h1 := (hsym r room0 hr0 e).mp hge
      unfold WorldRecord.entity_is_in_room at h1
      exact of_decide_eq_true h1
    refine ⟨?_, ?_, ?_, ?_⟩
    · intro r2 room2 hr2 e2
      by_cases hrr : r2 = r
      · subst hrr
        rw [alookup_amodify_self, hr0] at hr2
        injection hr2 with hroom2
        rw [← hroom2]
        by_cases hee : e2 = e
        · subst hee
          rw [hinre r2]
          apply iff_of_false
          · intro hm
            have := (mem_lremove.mp hm).2
            exact this rfl
          · simp
        · rw [hions e2 r2 hee]
          constructor
          · intro hm
            exact (hsym r2 room0 hr0 e2).mp (mem_lremove.mp hm).1
          · intro hin
            exact mem_lremove.mpr ⟨(hsym r2 room0 hr0 e2).mpr hin, hee⟩
      · rw [alookup_amodify_ne hrr] at hr2
        by_cases hee : e2 = e
        · subst hee
          rw [hinre r2]
          apply iff_of_false
          · intro hm
            have h1 := (hsym r2 room2 hr2 e2).mp hm
            unfold WorldRecord.entity_is_in_room at h1
            have h2 := of_decide_eq_true h1
            exact hrr (mem_mem_length_le_one h2 hrin (hb3 e2))
          · simp
        · rw [hions e2 r2 hee]
          exact hsym r2 room2 hr2 e2
    · intro q hq
      obtain ⟨q0, hq0, hfst, _⟩ := mem_amodify hq
      rw [hfst]
      exact hb1 q0 hq0
    · intro e2 r2 hmem
      by_cases hee : e2 = e
      · subst hee
        rw [hA1] at hmem
        cases hmem
      · rw [hA2 e2 hee] at hmem
        rw [alookup_isSome_amodify]
        exact hb2 e2 r2 hmem
    · intro e2
      by_cases hee : e2 = e
      · subst hee
        rw [hA1]
        simp
      · rw [hA2 e2 hee]
        exact hb3 e2

theorem entRun_inv : ∀ (ops : List SOp) (s s2 : Server), entSeqOK ops s = true →
    runOps ops s = some s2 → EntInv s → EntInv s2 := by
  intro ops
  induction ops with
  | nil =>
    intro s s2 _ hrun hinv
    rw [runOps] at hrun
    injection hrun with h
    rw [← h]
    exact hinv
  | cons op rest ih =>
    intro s s2 hok hrun hinv
    rw [entSeqOK] at hok
    rw [runOps] at hrun
    cases hstep : sstep op s with
    | none =>
      rw [hstep] at hrun
      cases hrun
    | some s3 =>
      rw [hstep] at hrun hok
      rw [Bool.and_eq_true] at hok
      obtain ⟨hguard, hok2⟩ := hok
      have hinv3 : EntInv s3 := by
        cases op with
        | makeRoom =>
          simp only [sstep] at hstep
          injection hstep with h3
          rw [← h3]
          exact entInv_make_room s hinv
        | roomAddEntity r e =>
          simp only [sstep] at hstep
          injection hstep with h3
          rw [← h3]
          simp only [entGuard] at hguard
          exact entInv_add_entity s r e hinv (isEmpty_eq_nil hguard)
        | roomRemoveEntity r e =>
          simp only [sstep] at hstep
          injection hstep with h3
          rw [← h3]
          apply entInv_remove_entity s r e hinv
          intro room hroom
          simp only [entGuard, hroom] at hguard
          exact of_decide_eq_true hguard
        | connectRequest a b => simp [entGuard] at hguard
        | acceptConnection k => simp [entGuard] at hguard
        | rejectConnection k => simp [entGuard] at hguard
        | roomAddUser r k => simp [entGuard] at hguard
        | roomRemoveUser r k => simp [entGuard] at hguard
        | roomDestroy r => simp [entGuard] at hguard
        | userDelete k => simp [entGuard] at hguard
        | userDisconnect k => simp [entGuard] at hguard
        | spawnEntityInit e => simp [entGuard] at hguard
        | scopeSet k e b => simp [entGuard] at hguard
        | updateScopes w => simp [entGuard] at hguard
      exact ih s3 s2 hok2 hrun hinv3

/-- Claim C4 (amended): `room_add_entity` adds the entity to the room's set
and records the room on the entity; `room_remove_entity` removes the entity
from that room's set but clears the entity's WorldRecord room membership
entirely (so removing from one room does not leave membership in another
room intact).  For any sequence of `make_room` / `room_add_entity` /
`room_remove_entity` calls in which each `room_add_entity` targets an
entity currently recorded in no room and each `room_remove_entity` an
entity actually held by that room, the two-sided symmetry — E is in R's
entity set iff the WorldRecord records E in R — is an invariant. -/
theorem room_entity_symmetry_amended (channels : List (Nat × Bool)) (bw : Bool)
    (tm : Option TickManager) (ops : List SOp) (s2 : Server)
    (hok : entSeqOK ops (Server.new channels bw tm) = true)
    (hrun : runOps ops (Server.new channels bw tm) = some s2) :
    RoomEntitySym s2 := by
  have hinit : EntInv (Server.new channels bw tm) := by
    refine ⟨?_, ?_, ?_, ?_⟩
    · intro r room hr e
      simp [Server.new, alookup] at hr
    · intro q hq
      simp [Server.new] at hq
    · intro e r hmem
      simp [Server.new, WorldRecord.empty, alookup] at hmem
    · intro e
      simp [Server.new, WorldRecord.empty, alookup]
  exact (entRun_inv ops _ s2 hok hrun hinit).1

theorem room_entity_symmetry_amended_witness : RoomEntitySym c4AmState :=
  room_entity_symmetry_amended [] false none c4AmOps c4AmState (by decide) (by decide)

theorem option_isSome_map {α β : Type} (f : α → β) (o : Option α) :
    (o.map f).isSome = o.isSome := by
  cases o <;> rfl

theorem alookup_aerase_self {κ α : Type} [DecidableEq κ] (k : κ) :
    ∀ l : List (κ × α), alookup k (aerase k l) = none := by
  intro l
  induction l with
  | nil => rfl
  | cons p rest ih =>
    by_cases hp : p.1 = k
    · simp [aerase, hp, ih]
    · simp [aerase, alookup, hp, ih]

theorem alookup_aerase_ne {κ α : Type} [DecidableEq κ] {j k : κ} (h : j ≠ k) :
    ∀ l : List (κ × α), alookup j (aerase k l) = alookup j l := by
  intro l
  induction l with
  | nil => rfl
  | cons p rest ih =>
    by_cases hp : p.1 = k
    · have hkj : k ≠ j := fun hh => h hh.symm
      simp [aerase, alookup, hp, hkj, ih]
    · simp [aerase, alookup, hp, ih]

theorem rrel_refl (k0 : Nat) (o : Option Room) : RRel k0 o o := by
  refine ⟨rfl, ?_⟩
  intro a b ha hb
  rw [ha] at hb
  injection hb with hab
  subst hab
  exact ⟨fun j hj => Iff.rfl, fun j hj => hj⟩

theorem rrel_trans {k0 : Nat} {o1 o2 o3 : Option Room}
    (h12 : RRel k0 o1 o2) (h23 : RRel k0 o2 o3) : RRel k0 o1 o3 := by
  obtain ⟨hs12, hf12⟩ := h12
  obtain ⟨hs23, hf23⟩ := h23
  refine ⟨hs12.trans hs23, ?_⟩
  intro a c ha hc
  have h2s : o2.isSome = true := by
    rw [hs23, hc]
    rfl
  obtain ⟨b, hb⟩ := Option.isSome_iff_exists.mp h2s
  obtain ⟨hiff12, hsub12⟩ := hf12 a b ha hb
  obtain ⟨hiff23, hsub23⟩ := hf23 b c hb hc
  exact ⟨fun j hj => (hiff12 j hj).trans (hiff23 j hj),
         fun j hj => hsub23 j (hsub12 j hj)⟩

theorem rrel_unsub_some (k0 : Nat) (b : Room) :
    RRel k0 (some (b.unsubscribe_user k0)) (some b) := by
  refine ⟨rfl, ?_⟩
  intro a b2 ha hb2
  injection ha with ha2
  injection hb2 with hb3
  subst ha2
  subst hb3
  constructor
  · intro j hj
    simp [Room.unsubscribe_user, mem_lremove, hj]
  · intro j hj
    exact (mem_lremove.mp hj).1

theorem rrel_amodify_unsub (k0 r r2 : Nat) (rs : List (Nat × Room)) :
    RRel k0 (alookup r2 (amodify r (fun room => room.unsubscribe_user k0) rs))
      (alookup r2 rs) := by
  by_cases hr : r2 = r
  · subst hr
    rw [alookup_amodify_self]
    cases h0 : alookup r2 rs with
    | none =>
      refine ⟨rfl, ?_⟩
      intro a b ha hb
      cases ha
    | some b => exact rrel_unsub_some k0 b
  · rw [alookup_amodify_ne hr]
    exact rrel_refl _ _

theorem rrel_unsub_fold (k0 : Nat) : ∀ (ks : List Nat) (rooms rooms2 : List (Nat × Room)),
    List.foldlM (fun rs r => if (alookup r rs).isSome then
        some (amodify r (fun room => room.unsubscribe_user k0) rs) else none) rooms ks
      = some rooms2 →
    ∀ r2, RRel k0 (alookup r2 rooms2) (alookup r2 rooms) := by
  intro ks
  induction ks with
  | nil =>
    intro rooms rooms2 h r2
    simp [List.foldlM] at h
    rw [← h]
    exact rrel_refl _ _
  | cons r ks ih =>
    intro rooms rooms2 h r2
    rw [List.foldlM] at h
    by_cases hr : (alookup r rooms).isSome = true
    · simp only [hr, if_true, Option.bind_eq_bind, Option.some_bind] at h
      exact rrel_trans (ih _ rooms2 h r2) (rrel_amodify_unsub k0 r r2 rooms)
    · simp [hr] at h

theorem urel_refl (r0 : Nat) (o : Option User) : URel r0 o o := by
  refine ⟨rfl, ?_⟩
  intro a b ha hb
  rw [ha] at hb
  injection hb with hab
  subst hab
  exact ⟨fun j hj => Iff.rfl, fun j hj => hj⟩

theorem urel_trans {r0 : Nat} {o1 o2 o3 : Option User}
    (h12 : URel r0 o1 o2) (h23 : URel r0 o2 o3) : URel r0 o1 o3 := by
  obtain ⟨hs12, hf12⟩ := h12
  obtain ⟨hs23, hf23⟩ := h23
  refine ⟨hs12.trans hs23, ?_⟩
  intro a c ha hc
  have h2s : o2.isSome = true := by
    rw [hs23, hc]
    rfl
  obtain ⟨b, hb⟩ := Option.isSome_iff_exists.mp h2s
  obtain ⟨hiff12, hsub12⟩ := hf12 a b ha hb
  obtain ⟨hiff23, hsub23⟩ := hf23 b c hb hc
  exact ⟨fun j hj => (hiff12 j hj).trans (hiff23 j hj),
         fun j hj => hsub23 j (hsub12 j hj)⟩

theorem urel_uncache_some (r0 : Nat) (b : User) :
    URel r0 (some (b.uncache_room r0)) (some b) := by
  refine ⟨rfl, ?_⟩
  intro a b2 ha hb2
  injection ha with ha2
  injection hb2 with hb3
  subst ha2
  subst hb3
  constructor
  · intro j hj
    simp [User.uncache_room, mem_lremove, hj]
  · intro j hj
    exact (mem_lremove.mp hj).1

theorem urel_amodify_uncache (r0 k k2 : Nat) (us : List (Nat × User)) :
    URel r0 (alookup k2 (amodify k (fun u => u.uncache_room r0) us)) (alookup k2 us) := by
  by_cases hk : k2 = k
  · subst hk
    rw [alookup_amodify_self]
    cases h0 : alookup k2 us with
    | none =>
      refine ⟨rfl, ?_⟩
      intro a b ha hb
      cases ha
    | some b => exact urel_uncache_some r0 b
  · rw [alookup_amodify_ne hk]
    exact urel_refl _ _

theorem urel_uncache_fold (r0 : Nat) : ∀ (ks : List Nat) (us us2 : List (Nat × User)),
    List.foldlM (fun acc k => if (alookup k acc).isSome then
        some (amodify k (fun u => u.uncache_room r0) acc) else none) us ks
      = some us2 →
    ∀ k2, URel r0 (alookup k2 us2) (alookup k2 us) := by
  intro ks
  induction ks with
  | nil =>
    intro us us2 h k2
    simp [List.foldlM] at h
    rw [← h]
    exact urel_refl _ _
  | cons k ks ih =>
    intro us us2 h k2
    rw [List.foldlM] at h
    by_cases hk : (alookup k us).isSome = true
    · simp only [hk, if_true, Option.bind_eq_bind, Option.some_bind] at h
      exact urel_trans (ih _ us2 h k2) (urel_amodify_uncache r0 k k2 us)
    · simp [hk] at h

theorem sinv_ext (s2 : Server) (us : List (Nat × User)) (rs : List (Nat × Room)) (nu nr : Nat)
    (hu : s2.users = us) (hr : s2.rooms = rs) (hnu : s2.next_user_key = nu)
    (hnr : s2.next_room_key = nr)
    (hsym : ∀ k u r room, alookup k us = some u → alookup r rs = some room →
       (r ∈ u.roomKeys ↔ k ∈ room.userKeys))
    (hc2 : ∀ k, (alookup k us).isSome = true → k < nu)
    (hc3 : ∀ r, (alookup r rs).isSome = true → r < nr)
    (hc4 : ∀ r room, alookup r rs = some room → ∀ j, j ∈ room.userKeys → j < nu)
    (hc5 : ∀ k u, alookup k us = some u → ∀ j, j ∈ u.roomKeys → j < nr) :
    SInv s2 := by
  subst hu
  subst hr
  subst hnu
  subst hnr
  exact ⟨hsym, hc2, hc3, hc4, hc5⟩

theorem sinv_congr (s s2 : Server) (hu : s2.users = s.users) (hr : s2.rooms = s.rooms)
    (hnu : s2.next_user_key = s.next_user_key) (hnr : s2.next_room_key = s.next_room_key)
    (h : SInv s) : SInv s2 := by
  obtain ⟨h1, h2, h3, h4, h5⟩ := h
  exact sinv_ext s2 s.users s.rooms s.next_user_key s.next_room_key hu hr hnu hnr h1 h2 h3 h4 h5

/-- Transfer of `SInv` across a state whose rooms have pointwise-equal user
sets and whose users and counters are unchanged. -/
theorem sinv_rooms_userkeys_eq (s s2 : Server)
    (hu : s2.users = s.users)
    (hnu : s2.next_user_key = s.next_user_key) (hnr : s2.next_room_key = s.next_room_key)
    (hmap : ∀ r2, (alookup r2 s2.rooms).map Room.userKeys
      = (alookup r2 s.rooms).map Room.userKeys)
    (hinv : SInv s) : SInv s2 := by
  obtain ⟨hsym, hbu, hbr, hbru, hbur⟩ := hinv
  refine sinv_ext _ s.users s2.rooms s.next_user_key s.next_room_key hu rfl hnu hnr
    ?_ ?_ ?_ ?_ ?_
  · intro k u r room hk hr
    have hmapr := hmap r
    rw [hr] at hmapr
    cases h0 : alookup r s.rooms with
    | none => rw [h0] at hmapr; cases hmapr
    | some room0 =>
      rw [h0] at hmapr
      injection hmapr with hukeys
      exact (hsym k u r room0 hk h0).trans (by rw [hukeys])
  · exact hbu
  · intro r hr
    apply hbr
    rw [← option_isSome_map Room.userKeys (alookup r s.rooms), ← hmap r, option_isSome_map]
    exact hr
  · intro r room hr j hj
    have hmapr := hmap r
    rw [hr] at hmapr
    cases h0 : alookup r s.rooms with
    | none => rw [h0] at hmapr; cases hmapr
    | some room0 =>
      rw [h0] at hmapr
      injection hmapr with hukeys
      apply hbru r room0 h0 j
      rw [← hukeys]
      exact hj
  · exact hbur

theorem sinv_user_delete (s : Server) (k0 : Nat) (pr : Option User × Server)
    (h : s.user_delete k0 = some pr) (hinv : SInv s) : SInv pr.2 := by
  obtain ⟨hsym, hbu, hbr, hbru, hbur⟩ := hinv
  unfold Server.user_delete at h
  split at h
  · injection h with h2
    rw [← h2]
    exact ⟨hsym, hbu, hbr, hbru, hbur⟩
  · rename_i user h1
    split at h
    · injection h with h2
      rw [← h2]
      refine sinv_ext _ (aerase k0 s.users) s.rooms s.next_user_key s.next_room_key
        rfl rfl rfl rfl ?_ ?_ ?_ ?_ ?_
      · intro k u r room hk hr
        by_cases hkk : k = k0
        · subst hkk
          rw [alookup_aerase_self] at hk
          cases hk
        · rw [alookup_aerase_ne hkk] at hk
          exact hsym k u r room hk hr
      · intro k hk
        by_cases hkk : k = k0
        · subst hkk
          rw [alookup_aerase_self] at hk
          simp at hk
        · rw [alookup_aerase_ne hkk] at hk
          exact hbu k hk
      · exact hbr
      · exact hbru
      · intro k u hk
        by_cases hkk : k = k0
        · subst hkk
          rw [alookup_aerase_self] at hk
          cases hk
        · rw [alookup_aerase_ne hkk] at hk
          exact hbur k u hk
    · rename_i conn h2
      split at h
      · cases h
      · rename_i rooms2 hfold
        have hrel := rrel_unsub_fold k0 user.roomKeys _ rooms2 hfold
        have m1 : ∀ k u r room, alookup k (aerase k0 s.users) = some u →
            alookup r rooms2 = some room → (r ∈ u.roomKeys ↔ k ∈ room.userKeys) := by
          intro k u r room hk hr
          by_cases hkk : k = k0
          · subst hkk
            rw [alookup_aerase_self] at hk
            cases hk
          · rw [alookup_aerase_ne hkk] at hk
            obtain ⟨hiso, hfn⟩ := hrel r
            have hro : (alookup r s.rooms).isSome = true := by
              rw [← hiso, hr]
              rfl
            obtain ⟨room0, hro⟩ := Option.isSome_iff_exists.mp hro
            obtain ⟨hiff, _⟩ := hfn room room0 hr hro
            exact (hsym k u r room0 hk hro).trans (hiff k hkk).symm
        have m2 : ∀ k, (alookup k (aerase k0 s.users)).isSome = true →
            k < s.next_user_key := by
          intro k hk
          by_cases hkk : k = k0
          · subst hkk
            rw [alookup_aerase_self] at hk
            simp at hk
          · rw [alookup_aerase_ne hkk] at hk
            exact hbu k hk
        have m3 : ∀ r, (alookup r rooms2).isSome = true → r < s.next_room_key := by
          intro r hr
          obtain ⟨hiso, _⟩ := hrel r
          apply hbr r
          rw [← hiso]
          exact hr
        have m4 : ∀ r room, alookup r rooms2 = some room → ∀ j, j ∈ room.userKeys →
            j < s.next_user_key := by
          intro r room hr j hj
          obtain ⟨hiso, hfn⟩ := hrel r
          have hro : (alookup r s.rooms).isSome = true := by
            rw [← hiso, hr]
            rfl
          obtain ⟨room0, hro⟩ := Option.isSome_iff_exists.mp hro
          obtain ⟨_, hsub⟩ := hfn room room0 hr hro
          exact hbru r room0 hro j (hsub j hj)
        have m5 : ∀ k u, alookup k (aerase k0 s.users) = some u → ∀ j, j ∈ u.roomKeys →
            j < s.next_room_key := by
          intro k u hk
          by_cases hkk : k = k0
          · subst hkk
            rw [alookup_aerase_self] at hk
            cases hk
          · rw [alookup_aerase_ne hkk] at hk
            exact hbur k u hk
        split at h
        · injection h with h3
          rw [← h3]
          exact sinv_ext _ (aerase k0 s.users) rooms2 s.next_user_key s.next_room_key
            rfl rfl rfl rfl m1 m2 m3 m4 m5
        · injection h with h3
          rw [← h3]
          exact sinv_ext _ (aerase k0 s.users) rooms2 s.next_user_key s.next_room_key
            rfl rfl rfl rfl m1 m2 m3 m4 m5

theorem sinv_append_user (s : Server) (addr : Nat) (hinv : SInv s) :
    SInv { s with users := s.users ++ [(s.next_user_key, User.new addr)],
                  next_user_key := s.next_user_key + 1 } := by
  obtain ⟨hsym, hbu, hbr, hbru, hbur⟩ := hinv
  refine sinv_ext _ (s.users ++ [(s.next_user_key, User.new addr)]) s.rooms
    (s.next_user_key + 1) s.next_room_key rfl rfl rfl rfl ?_ ?_ ?_ ?_ ?_
  · intro k u r room hk hr
    rw [alookup_append] at hk
    cases h0 : alookup k s.users with
    | some v =>
      rw [h0] at hk
      injection hk with hv
      subst hv
      exact hsym k v r room h0 hr
    | none =>
      rw [h0] at hk
      by_cases hkn : s.next_user_key = k
      · rw [alookup, if_pos hkn] at hk
        injection hk with hv
        rw [← hv]
        apply iff_of_false
        · intro hmem
          simp [User.new] at hmem
        · intro hmem
          have hlt := hbru r room hr k hmem
          rw [← hkn] at hlt
          exact Nat.lt_irrefl _ hlt
      · rw [alookup, if_neg hkn, alookup] at hk
        cases hk
  · intro k hk
    rw [alookup_append] at hk
    cases h0 : alookup k s.users with
    | some v =>
      exact Nat.lt_trans (hbu k (by rw [h0]; rfl)) (Nat.lt_succ_self _)
    | none =>
      rw [h0] at hk
      by_cases hkn : s.next_user_key = k
      · rw [← hkn]
        exact Nat.lt_succ_self _
      · rw [alookup, if_neg hkn, alookup] at hk
        simp at hk
  · exact hbr
  · intro r room hr j hj
    exact Nat.lt_trans (hbru r room hr j hj) (Nat.lt_succ_self _)
  · intro k u hk j hj
    rw [alookup_append] at hk
    cases h0 : alookup k s.users with
    | some v =>
      rw [h0] at hk
      injection hk with hv
      subst hv
      exact hbur k v h0 j hj
    | none =>
      rw [h0] at hk
      by_cases hkn : s.next_user_key = k
      · rw [alookup, if_pos hkn] at hk
        injection hk with hv
        rw [← hv] at hj
        simp [User.new] at hj
      · rw [alookup, if_neg hkn, alookup] at hk
        cases hk

theorem accept_core (s : Server) (k : Nat) :
    (s.accept_connection k).users = s.users ∧ (s.accept_connection k).rooms = s.rooms
    ∧ (s.accept_connection k).next_user_key = s.next_user_key
    ∧ (s.accept_connection k).next_room_key = s.next_room_key := by
  unfold Server.accept_connection
  split
  · exact ⟨rfl, rfl, rfl, rfl⟩
  · split
    · exact ⟨rfl, rfl, rfl, rfl⟩
    · exact ⟨rfl, rfl, rfl, rfl⟩

theorem sinv_process_connect (s : Server) (addr : Nat) (res : HandshakeResult) (s2 : Server)
    (h : processPacket s addr (InPacket.connectRequest res) = some s2) (hinv : SInv s) :
    SInv s2 := by
  cases res with
  | invalid =>
    simp only [processPacket] at h
    injection h with h2
    rw [← h2]
    exact hinv
  | success authOpt =>
    simp only [processPacket] at h
    by_cases hconn : (alookup addr s.user_connections).isSome = true
    · rw [if_pos hconn] at h
      injection h with h2
      rw [← h2]
      exact sinv_congr s _ rfl rfl rfl rfl hinv
    · rw [if_neg hconn] at h
      cases authOpt with
      | some payload =>
        injection h with h2
        rw [← h2]
        refine sinv_congr
          { s with
            users := s.users ++ [(s.next_user_key, User.new addr)],
            next_user_key := s.next_user_key + 1 } _ rfl rfl rfl rfl
          (sinv_append_user s addr hinv)
      | none =>
        injection h with h2
        rw [← h2]
        obtain ⟨hu, hr, hnu, hnr⟩ := accept_core
          { s with
            users := s.users ++ [(s.next_user_key, User.new addr)],
            next_user_key := s.next_user_key + 1 } s.next_user_key
        exact sinv_congr _ _ hu hr hnu hnr (sinv_append_user s addr hinv)

theorem sinv_make_room (s : Server) (hinv : SInv s) : SInv (s.make_room).1 := by
  obtain ⟨hsym, hbu, hbr, hbru, hbur⟩ := hinv
  refine sinv_ext _ s.users (s.rooms ++ [(s.next_room_key, Room.new)]) s.next_user_key
    (s.next_room_key + 1) rfl rfl rfl rfl ?_ ?_ ?_ ?_ ?_
  · intro k u r room hk hr
    rw [alookup_append] at hr
    cases h0 : alookup r s.rooms with
    | some v =>
      rw [h0] at hr
      injection hr with hv
      subst hv
      exact hsym k u r v hk h0
    | none =>
      rw [h0] at hr
      by_cases hrn : s.next_room_key = r
      · rw [alookup, if_pos hrn] at hr
        injection hr with hv
        rw [← hv]
        apply iff_of_false
        · intro hm
          have hlt := hbur k u hk r hm
          rw [← hrn] at hlt
          exact Nat.lt_irrefl _ hlt
        · intro hm
          simp [Room.new] at hm
      · rw [alookup, if_neg hrn, alookup] at hr
        cases hr
  · exact hbu
  · intro r hr
    rw [alookup_append] at hr
    cases h0 : alookup r s.rooms with
    | some v =>
      exact Nat.lt_trans (hbr r (by rw [h0]; rfl)) (Nat.lt_succ_self _)
    | none =>
      rw [h0] at hr
      by_cases hrn : s.next_room_key = r
      · rw [← hrn]
        exact Nat.lt_succ_self _
      · rw [alookup, if_neg hrn, alookup] at hr
        simp at hr
  · intro r room hr j hj
    rw [alookup_append] at hr
    cases h0 : alookup r s.rooms with
    | some v =>
      rw [h0] at hr
      injection hr with hv
      subst hv
      exact hbru r v h0 j hj
    | none =>
      rw [h0] at hr
      by_cases hrn : s.next_room_key = r
      · rw [alookup, if_pos hrn] at hr
        injection hr with hv
        rw [← hv] at hj
        simp [Room.new] at hj
      · rw [alookup, if_neg hrn, alookup] at hr
        cases hr
  · intro k u hk j hj
    exact Nat.lt_trans (hbur k u hk j hj) (Nat.lt_succ_self _)

theorem sinv_room_add_user (s : Server) (r0 k0 : Nat) (hinv : SInv s) :
    SInv (s.room_add_user r0 k0) := by
  obtain ⟨hsym, hbu, hbr, hbru, hbur⟩ := hinv
  unfold Server.room_add_user
  split
  · exact ⟨hsym, hbu, hbr, hbru, hbur⟩
  · rename_i user0 hk0
    split
    · exact ⟨hsym, hbu, hbr, hbru, hbur⟩
    · rename_i room0 hr0
      refine sinv_ext _ (amodify k0 (fun u => u.cache_room r0) s.users)
        (amodify r0 (fun room => room.subscribe_user k0) s.rooms)
        s.next_user_key s.next_room_key rfl rfl rfl rfl ?_ ?_ ?_ ?_ ?_
      · intro k u r room hk hr
        by_cases hkk : k = k0
        · subst hkk
          rw [alookup_amodify_self, hk0] at hk
          injection hk with hu2
          by_cases hrr : r = r0
          · subst hrr
            rw [alookup_amodify_self, hr0] at hr
            injection hr with hroom2
            rw [← hu2, ← hroom2]
            apply iff_of_true
            · exact mem_linsert.mpr (Or.inl rfl)
            · exact mem_linsert.mpr (Or.inl rfl)
          · rw [alookup_amodify_ne hrr] at hr
            rw [← hu2]
            constructor
            · intro hm
              rcases mem_linsert.mp hm with h1 | h1
              · exact absurd h1 hrr
              · exact (hsym k user0 r room hk0 hr).mp h1
            · intro hm
              exact mem_linsert.mpr (Or.inr ((hsym k user0 r room hk0 hr).mpr hm))
        · rw [alookup_amodify_ne hkk] at hk
          by_cases hrr : r = r0
          · subst hrr
            rw [alookup_amodify_self, hr0] at hr
            injection hr with hroom2
            rw [← hroom2]
            constructor
            · intro hm
              exact mem_linsert.mpr (Or.inr ((hsym k u r room0 hk hr0).mp hm))
            · intro hm
              rcases mem_linsert.mp hm with h1 | h1
              · exact absurd h1 hkk
              · exact (hsym k u r room0 hk hr0).mpr h1
          · rw [alookup_amodify_ne hrr] at hr
            exact hsym k u r room hk hr
      · intro k hk
        rw [alookup_isSome_amodify] at hk
        exact hbu k hk
      · intro r hr
        rw [alookup_isSome_amodify] at hr
        exact hbr r hr
      · intro r room hr j hj
        by_cases hrr : r = r0
        · subst hrr
          rw [alookup_amodify_self, hr0] at hr
          injection hr with hroom2
          rw [← hroom2] at hj
          rcases mem_linsert.mp hj with h1 | h1
          · subst h1
            exact hbu j (by rw [hk0]; rfl)
          · exact hbru r room0 hr0 j h1
        · rw [alookup_amodify_ne hrr] at hr
          exact hbru r room hr j hj
      · intro k u hk j hj
        by_cases hkk : k = k0
        · subst hkk
          rw [alookup_amodify_self, hk0] at hk
          injection hk with hu2
          rw [← hu2] at hj
          rcases mem_linsert.mp hj with h1 | h1
          · subst h1
            exact hbr j (by rw [hr0]; rfl)
          · exact hbur k user0 hk0 j h1
        · rw [alookup_amodify_ne hkk] at hk
          exact hbur k u hk j hj

theorem sinv_room_remove_user (s : Server) (r0 k0 : Nat) (hinv : SInv s) :
    SInv (s.room_remove_user r0 k0) := by
  obtain ⟨hsym, hbu, hbr, hbru, hbur⟩ := hinv
  unfold Server.room_remove_user
  split
  · exact ⟨hsym, hbu, hbr, hbru, hbur⟩
  · rename_i user0 hk0
    split
    · exact ⟨hsym, hbu, hbr, hbru, hbur⟩
    · rename_i room0 hr0
      refine sinv_ext _ (amodify k0 (fun u => u.uncache_room r0) s.users)
        (amodify r0 (fun room => room.unsubscribe_user k0) s.rooms)
        s.next_user_key s.next_room_key rfl rfl rfl rfl ?_ ?_ ?_ ?_ ?_
      · intro k u r room hk hr
        by_cases hkk : k = k0
        · subst hkk
          rw [alookup_amodify_self, hk0] at hk
          injection hk with hu2
          by_cases hrr : r = r0
          · subst hrr
            rw [alookup_amodify_self, hr0] at hr
            injection hr with hroom2
            rw [← hu2, ← hroom2]
            apply iff_of_false
            · intro hm
              exact (mem_lremove.mp hm).2 rfl
            · intro hm
              exact (mem_lremove.mp hm).2 rfl
          · rw [alookup_amodify_ne hrr] at hr
            rw [← hu2]
            constructor
            · intro hm
              exact (hsym k user0 r room hk0 hr).mp (mem_lremove.mp hm).1
            · intro hm
              exact mem_lremove.mpr ⟨(hsym k user0 r room hk0 hr).mpr hm, hrr⟩
        · rw [alookup_amodify_ne hkk] at hk
          by_cases hrr : r = r0
          · subst hrr
            rw [alookup_amodify_self, hr0] at hr
            injection hr with hroom2
            rw [← hroom2]
            constructor
            · intro hm
              exact mem_lremove.mpr ⟨(hsym k u r room0 hk hr0).mp hm, hkk⟩
            · intro hm
              exact (hsym k u r room0 hk hr0).mpr (mem_lremove.mp hm).1
          · rw [alookup_amodify_ne hrr] at hr
            exact hsym k u r room hk hr
      · intro k hk
        rw [alookup_isSome_amodify] at hk
        exact hbu k hk
      · intro r hr
        rw [alookup_isSome_amodify] at hr
        exact hbr r hr
      · intro r room hr j hj
        by_cases hrr : r = r0
        · subst hrr
          rw [alookup_amodify_self, hr0] at hr
          injection hr with hroom2
          rw [← hroom2] at hj
          exact hbru r room0 hr0 j (mem_lremove.mp hj).1
        · rw [alookup_amodify_ne hrr] at hr
          exact hbru r room hr j hj
      · intro k u hk j hj
        by_cases hkk : k = k0
        · subst hkk
          rw [alookup_amodify_self, hk0] at hk
          injection hk with hu2
          rw [← hu2] at hj
          exact hbur k user0 hk0 j (mem_lremove.mp hj).1
        · rw [alookup_amodify_ne hkk] at hk
          exact hbur k u hk j hj

theorem rra_core (s : Server) (r0 : Nat) :
    (s.room_remove_all_entities r0).users = s.users
    ∧ (s.room_remove_all_entities r0).next_user_key = s.next_user_key
    ∧ (s.room_remove_all_entities r0).next_room_key = s.next_room_key
    ∧ ∀ r2, (alookup r2 (s.room_remove_all_entities r0).rooms).map Room.userKeys
        = (alookup r2 s.rooms).map Room.userKeys := by
  unfold Server.room_remove_all_entities
  split
  · exact ⟨rfl, rfl, rfl, fun r2 => rfl⟩
  · rename_i room hroom
    refine foldl_invariant (fun acc : Server => acc.users = s.users
      ∧ acc.next_user_key = s.next_user_key
      ∧ acc.next_room_key = s.next_room_key
      ∧ ∀ r2, (alookup r2 acc.rooms).map Room.userKeys
          = (alookup r2 s.rooms).map Room.userKeys) _ room.entities s
      ⟨rfl, rfl, rfl, fun r2 => rfl⟩ ?_
    intro acc e he hP
    obtain ⟨h1, h2, h3, h4⟩ := hP
    refine ⟨h1, h2, h3, ?_⟩
    intro r2
    by_cases hr : r2 = r0
    · subst hr
      rw [alookup_amodify_self, ← h4 r2]
      cases alookup r2 acc.rooms <;> rfl
    · rw [alookup_amodify_ne hr]
      exact h4 r2

theorem sinv_room_destroy (s : Server) (r0 : Nat) (pr : Server × Bool)
    (h : s.room_destroy r0 = some pr) (hinv : SInv s) : SInv pr.1 := by
  obtain ⟨hcu, hcnu, hcnr, hcr⟩ := rra_core s r0
  have hinv1 : SInv (s.room_remove_all_entities r0) :=
    sinv_rooms_userkeys_eq s _ hcu hcnu hcnr hcr hinv
  obtain ⟨hsym1, hbu1, hbr1, hbru1, hbur1⟩ := hinv1
  unfold Server.room_destroy at h
  split at h
  · injection h with h2
    rw [← h2]
    exact ⟨hsym1, hbu1, hbr1, hbru1, hbur1⟩
  · rename_i room hroom
    split at h
    · cases h
    · rename_i users2 hfold
      injection h with h2
      have hurel := urel_uncache_fold r0 room.userKeys _ users2 hfold
      rw [← h2]
      refine sinv_ext _ users2 (aerase r0 (s.room_remove_all_entities r0).rooms)
        (s.room_remove_all_entities r0).next_user_key
        (s.room_remove_all_entities r0).next_room_key rfl rfl rfl rfl ?_ ?_ ?_ ?_ ?_
      · intro k u r room2 hk hr
        by_cases hrr : r = r0
        · subst hrr
          rw [alookup_aerase_self] at hr
          cases hr
        · rw [alookup_aerase_ne hrr] at hr
          obtain ⟨hiso, hfn⟩ := hurel k
          have hko : (alookup k (s.room_remove_all_entities r0).users).isSome = true := by
            rw [← hiso, hk]
            rfl
          obtain ⟨u0, hku0⟩ := Option.isSome_iff_exists.mp hko
          obtain ⟨hiff, _⟩ := hfn u u0 hk hku0
          exact (hiff r hrr).trans (hsym1 k u0 r room2 hku0 hr)
      · intro k hk
        obtain ⟨hiso, _⟩ := hurel k
        apply hbu1 k
        rw [← hiso]
        exact hk
      · intro r hr
        by_cases hrr : r = r0
        · subst hrr
          rw [alookup_aerase_self] at hr
          simp at hr
        · rw [alookup_aerase_ne hrr] at hr
          exact hbr1 r hr
      · intro r room2 hr j hj
        by_cases hrr : r = r0
        · subst hrr
          rw [alookup_aerase_self] at hr
          cases hr
        · rw [alookup_aerase_ne hrr] at hr
          exact hbru1 r room2 hr j hj
      · intro k u hk j hj
        obtain ⟨hiso, hfn⟩ := hurel k
        have hko : (alookup k (s.room_remove_all_entities r0).users).isSome = true := by
          rw [← hiso, hk]
          rfl
        obtain ⟨u0, hku0⟩ := Option.isSome_iff_exists.mp hko
        obtain ⟨_, hsub⟩ := hfn u u0 hk hku0
        exact hbur1 k u0 hku0 j (hsub j hj)

theorem sinv_reject (s : Server) (k0 : Nat) (s2 : Server)
    (h : s.reject_connection k0 = some s2) (hinv : SInv s) : SInv s2 := by
  unfold Server.reject_connection at h
  split at h
  · rename_i user h0
    split at h
    · cases h
    · rename_i pr hdel
      injection h with h2
      rw [← h2]
      exact sinv_user_delete _ k0 pr hdel (sinv_congr s _ rfl rfl rfl rfl hinv)
  · rename_i h0
    split at h
    · cases h
    · rename_i pr hdel
      injection h with h2
      rw [← h2]
      exact sinv_user_delete s k0 pr hdel hinv

theorem sinv_user_disconnect (s : Server) (k0 : Nat) (s2 : Server)
    (h : s.user_disconnect k0 = some s2) (hinv : SInv s) : SInv s2 := by
  unfold Server.user_disconnect at h
  split at h
  · cases h
  · rename_i user s1 hdel
    injection h with h2
    rw [← h2]
    exact sinv_congr _ _ rfl rfl rfl rfl (sinv_user_delete s k0 (some user, s1) hdel hinv)
  · rename_i s1 hdel
    injection h with h2
    rw [← h2]
    exact sinv_user_delete s k0 (none, s1) hdel hinv

theorem sinv_update_scopes (s : Server) (world : World) (hinv : SInv s) :
    SInv (s.update_entity_scopes world) := by
  have hu : (s.update_entity_scopes world).users = s.users := rfl
  have hnu : (s.update_entity_scopes world).next_user_key = s.next_user_key := rfl
  have hnr : (s.update_entity_scopes world).next_room_key = s.next_room_key := rfl
  have hmap : ∀ r2, (alookup r2 (s.update_entity_scopes world).rooms).map Room.userKeys
      = (alookup r2 s.rooms).map Room.userKeys := by
    intro r2
    refine foldl_invariant
      (fun acc : List (Nat × Room) × List (Nat × Connection) =>
        (alookup r2 acc.1).map Room.userKeys = (alookup r2 s.rooms).map Room.userKeys)
      (updateScopesStep s.users s.entity_scope_map s.world_record world)
      (s.rooms.map Prod.fst) (s.rooms, s.user_connections) rfl ?_
    intro acc rk hrk hP
    unfold updateScopesStep
    split
    · exact hP
    · rename_i room h0
      by_cases hr : r2 = rk
      · subst hr
        rw [alookup_amodify_self, h0]
        rw [h0] at hP
        exact hP
      · rw [alookup_amodify_ne hr]
        exact hP
  exact sinv_rooms_userkeys_eq s _ hu hnu hnr hmap hinv

theorem sinv_room_add_entity (s : Server) (r0 e : Nat) (hinv : SInv s) :
    SInv (s.room_add_entity r0 e) := by
  have hu : (s.room_add_entity r0 e).users = s.users := by
    unfold Server.room_add_entity
    split <;> rfl
  have hnu : (s.room_add_entity r0 e).next_user_key = s.next_user_key := by
    unfold Server.room_add_entity
    split <;> rfl
  have hnr : (s.room_add_entity r0 e).next_room_key = s.next_room_key := by
    unfold Server.room_add_entity
    split <;> rfl
  have hmap : ∀ r2, (alookup r2 (s.room_add_entity r0 e).rooms).map Room.userKeys
      = (alookup r2 s.rooms).map Room.userKeys := by
    intro r2
    unfold Server.room_add_entity
    split
    · rfl
    · by_cases hr : r2 = r0
      · subst hr
        rw [alookup_amodify_self]
        cases alookup r2 s.rooms <;> rfl
      · rw [alookup_amodify_ne hr]
  exact sinv_rooms_userkeys_eq s _ hu hnu hnr hmap hinv

theorem sinv_room_remove_entity (s : Server) (r0 e : Nat) (hinv : SInv s) :
    SInv (s.room_remove_entity r0 e) := by
  have hu : (s.room_remove_entity r0 e).users = s.users := by
    unfold Server.room_remove_entity
    split <;> rfl
  have hnu : (s.room_remove_entity r0 e).next_user_key = s.next_user_key := by
    unfold Server.room_remove_entity
    split <;> rfl
  have hnr : (s.room_remove_entity r0 e).next_room_key = s.next_room_key := by
    unfold Server.room_remove_entity
    split <;> rfl
  have hmap : ∀ r2, (alookup r2 (s.room_remove_entity r0 e).rooms).map Room.userKeys
      = (alookup r2 s.rooms).map Room.userKeys := by
    intro r2
    unfold Server.room_remove_entity
    split
    · rfl
    · by_cases hr : r2 = r0
      · subst hr
        rw [alookup_amodify_self]
        cases alookup r2 s.rooms <;> rfl
      · rw [alookup_amodify_ne hr]
  exact sinv_rooms_userkeys_eq s _ hu hnu hnr hmap hinv

theorem sinv_step (op : SOp) (s s2 : Server) (h : sstep op s = some s2) (hinv : SInv s) :
    SInv s2 := by
  cases op with
  | connectRequest addr res => exact sinv_process_connect s addr res s2 h hinv
  | acceptConnection k =>
    injection h with h2
    rw [← h2]
    obtain ⟨hu, hr, hnu, hnr⟩ := accept_core s k
    exact sinv_congr s (s.accept_connection k) hu hr hnu hnr hinv
  | rejectConnection k => exact sinv_reject s k s2 h hinv
  | makeRoom =>
    injection h with h2
    rw [← h2]
    exact sinv_make_room s hinv
  | roomAddUser r k =>
    injection h with h2
    rw [← h2]
    exact sinv_room_add_user s r k hinv
  | roomRemoveUser r k =>
    injection h with h2
    rw [← h2]
    exact sinv_room_remove_user s r k hinv
  | roomDestroy r =>
    simp only [sstep] at h
    cases hd : s.room_destroy r with
    | none =>
      rw [hd] at h
      cases h
    | some pr =>
      rw [hd] at h
      injection h with h2
      rw [← h2]
      exact sinv_room_destroy s r pr hd hinv
  | userDelete k =>
    simp only [sstep] at h
    cases hd : s.user_delete k with
    | none =>
      rw [hd] at h
      cases h
    | some pr =>
      rw [hd] at h
      injection h with h2
      rw [← h2]
      exact sinv_user_delete s k pr hd hinv
  | userDisconnect k => exact sinv_user_disconnect s k s2 h hinv
  | roomAddEntity r e =>
    injection h with h2
    rw [← h2]
    exact sinv_room_add_entity s r e hinv
  | roomRemoveEntity r e =>
    injection h with h2
    rw [← h2]
    exact sinv_room_remove_entity s r e hinv
  | spawnEntityInit e =>
    injection h with h2
    rw [← h2]
    exact sinv_congr s _ rfl rfl rfl rfl hinv
  | scopeSet k e b =>
    injection h with h2
    rw [← h2]
    exact sinv_congr s _ rfl rfl rfl rfl hinv
  | updateScopes w =>
    injection h with h2
    rw [← h2]
    exact sinv_update_scopes s w hinv

theorem sinv_run : ∀ (ops : List SOp) (s s2 : Server), runOps ops s = some s2 →
    SInv s → SInv s2 := by
  intro ops
  induction ops with
  | nil =>
    intro s s2 h hinv
    rw [runOps] at h
    injection h with h2
    rw [← h2]
    exact hinv
  | cons op rest ih =>
    intro s s2 h hinv
    rw [runOps] at h
    cases hstep : sstep op s with
    | none =>
      rw [hstep] at h
      cases h
    | some s3 =>
      rw [hstep] at h
      exact ih s3 s2 h (sinv_step op s s3 hstep hinv)

/-- Claim C3: room/user membership symmetry is an invariant of every
sequence of public mutations (connect, accept, reject, make_room,
room_add_user, room_remove_user, room_destroy, user_delete,
user_disconnect, entity room moves, scope updates and scope passes): in
every reachable state, for every live user U and live room R, R is in U's
cached room_keys iff U is in R's user-key set. -/
theorem room_user_symmetry_invariant (channels : List (Nat × Bool)) (bw : Bool)
    (tm : Option TickManager) (ops : List SOp) (s2 : Server)
    (hrun : runOps ops (Server.new channels bw tm) = some s2) :
    RoomUserSym s2 := by
  have hinit : SInv (Server.new channels bw tm) := by
    refine ⟨?_, ?_, ?_, ?_, ?_⟩
    · intro k u r room hk hr
      simp [Server.new, alookup] at hk
    · intro k hk
      simp [Server.new, alookup] at hk
    · intro r hr
      simp [Server.new, alookup] at hr
    · intro r room hr
      simp [Server.new, alookup] at hr
    · intro k u hk
      simp [Server.new, alookup] at hk
  exact (sinv_run ops _ s2 hrun hinit).1

theorem room_user_symmetry_invariant_witness : RoomUserSym c3State :=
  room_user_symmetry_invariant [] false none c3Ops c3State (by decide)

theorem mext_refl (s : Server) : MExt s s :=
  ⟨rfl, [], by simp, by simp⟩

theorem mext_trans {s1 s2 s3 : Server} (h12 : MExt s1 s2) (h23 : MExt s2 s3) : MExt s1 s3 := by
  obtain ⟨ht12, l12, he12, hn12⟩ := h12
  obtain ⟨ht23, l23, he23, hn23⟩ := h23
  refine ⟨ht23.trans ht12, l12 ++ l23, ?_, ?_⟩
  · rw [he23, he12, List.append_assoc]
  · intro hmem
    rcases List.mem_append.mp hmem with hx | hx
    · exact hn12 hx
    · exact hn23 hx

theorem mext_user_delete (s : Server) (k : Nat) (pr : Option User × Server)
    (h : s.user_delete k = some pr) :
    pr.2.tick_manager = s.tick_manager ∧ pr.2.incoming_events = s.incoming_events := by
  unfold Server.user_delete at h
  split at h
  · injection h with h2
    rw [← h2]
    exact ⟨rfl, rfl⟩
  · split at h
    · injection h with h2
      rw [← h2]
      exact ⟨rfl, rfl⟩
    · split at h
      · cases h
      · split at h
        · injection h with h2
          rw [← h2]
          exact ⟨rfl, rfl⟩
        · injection h with h2
          rw [← h2]
          exact ⟨rfl, rfl⟩

theorem mext_user_disconnect (s : Server) (k : Nat) (s2 : Server)
    (h : s.user_disconnect k = some s2) : MExt s s2 := by
  unfold Server.user_disconnect at h
  split at h
  · cases h
  · rename_i user s1 hdel
    obtain ⟨htm, hev⟩ := mext_user_delete s k (some user, s1) hdel
    injection h with h2
    rw [← h2]
    exact ⟨htm, [Event.disconnection k user], by rw [hev], by simp⟩
  · rename_i s1 hdel
    obtain ⟨htm, hev⟩ := mext_user_delete s k (none, s1) hdel
    injection h with h2
    rw [← h2]
    exact ⟨htm, [], by rw [hev, List.append_nil], by simp⟩

theorem mext_accept (s : Server) (k : Nat) : MExt s (s.accept_connection k) := by
  unfold Server.accept_connection
  split
  · exact mext_refl s
  · split
    · exact ⟨rfl, [Event.connection k], rfl, by simp⟩
    · exact ⟨rfl, [Event.connection k], rfl, by simp⟩

theorem mext_process_packet (s : Server) (addr : Nat) (p : InPacket) (s2 : Server)
    (h : processPacket s addr p = some s2) : MExt s s2 := by
  cases p with
  | malformed =>
    simp only [processPacket] at h
    injection h with h2
    rw [← h2]
    exact mext_refl s
  | ioError =>
    simp only [processPacket] at h
    injection h with h2
    rw [← h2]
    exact ⟨rfl, [Event.error], rfl, by simp⟩
  | challengeRequest valid =>
    simp only [processPacket] at h
    injection h with h2
    rw [← h2]
    split
    · exact ⟨rfl, [], by simp, by simp⟩
    · exact mext_refl s
  | disconnect valid =>
    simp only [processPacket] at h
    split at h
    · injection h with h2
      rw [← h2]
      exact mext_refl s
    · rename_i conn hconn
      split at h
      · exact mext_user_disconnect s conn.userKey s2 h
      · injection h with h2
        rw [← h2]
        exact mext_refl s
  | connectRequest res =>
    cases res with
    | invalid =>
      simp only [processPacket] at h
      injection h with h2
      rw [← h2]
      exact mext_refl s
    | success authOpt =>
      simp only [processPacket] at h
      split at h
      · injection h with h2
        rw [← h2]
        exact ⟨rfl, [], by simp, by simp⟩
      · cases authOpt with
        | some payload =>
          injection h with h2
          rw [← h2]
          exact ⟨rfl, [Event.auth s.next_user_key payload], rfl, by simp⟩
        | none =>
          injection h with h2
          rw [← h2]
          exact mext_trans (⟨rfl, [], by simp, by simp⟩ :
            MExt s { s with users := s.users ++ [(s.next_user_key, User.new addr)],
                            next_user_key := s.next_user_key + 1 })
            (mext_accept _ s.next_user_key)

theorem mext_foldlM {β : Type} (f : Server → β → Option Server)
    (hf : ∀ c b c2, f c b = some c2 → MExt c c2) :
    ∀ (l : List β) (c c2 : Server), List.foldlM f c l = some c2 → MExt c c2 := by
  intro l
  induction l with
  | nil =>
    intro c c2 h
    simp [List.foldlM] at h
    rw [← h]
    exact mext_refl c
  | cons b rest ih =>
    intro c c2 h
    rw [List.foldlM] at h
    cases hfb : f c b with
    | none =>
      rw [hfb] at h
      simp at h
    | some c1 =>
      rw [hfb] at h
      simp only [Option.bind_eq_bind, Option.some_bind] at h
      exact mext_trans (hf c b c1 hfb) (ih c1 c2 h)

theorem mext_heartbeat (s : Server) : MExt s (heartbeatSweep s) := by
  unfold heartbeatSweep
  split
  · exact ⟨rfl, [], by simp, by simp⟩
  · exact mext_refl s

theorem mext_ping (s : Server) : MExt s (pingSweep s) := by
  unfold pingSweep
  split
  · exact ⟨rfl, [], by simp, by simp⟩
  · exact mext_refl s

theorem mext_timeout (s : Server) (s2 : Server) (h : timeoutSweep s = some s2) : MExt s s2 := by
  unfold timeoutSweep at h
  split at h
  · have hrest := mext_foldlM (fun acc k => acc.user_disconnect k)
      (fun c b c2 hh => mext_user_disconnect c b c2 hh) _ _ s2 h
    exact mext_trans (⟨rfl, [], by simp, by simp⟩ :
      MExt s { s with timeout_ringing := false }) hrest
  · injection h with h2
    rw [← h2]
    exact mext_refl s

theorem mext_maintain (s : Server) (inbox : List (Nat × InPacket)) (s1 : Server)
    (h : s.maintain_socket inbox = some s1) : MExt s s1 := by
  unfold Server.maintain_socket at h
  split at h
  · cases h
  · rename_i st hts
    have h1 := mext_timeout s st hts
    have h2 : MExt st (pingSweep (heartbeatSweep st)) :=
      mext_trans (mext_heartbeat st) (mext_ping (heartbeatSweep st))
    have h3 := mext_foldlM (fun acc q => processPacket acc q.1 q.2)
      (fun c b c2 hh => mext_process_packet c b.1 b.2 c2 hh) inbox _ s1 h
    exact mext_trans h1 (mext_trans h2 h3)

theorem lflat_congr {f g : Nat → List Event} :
    ∀ {l : List Nat}, (∀ b ∈ l, f b = g b) → lflat f l = lflat g l := by
  intro l
  induction l with
  | nil => intro _; rfl
  | cons a rest ih =>
    intro hfg
    rw [lflat, lflat, hfg a (List.mem_cons_self a rest)]
    rw [ih (fun b hb => hfg b (List.mem_cons_of_mem a hb))]

theorem drainMM_events : ∀ (order : List Nat) (conns : List (Nat × Connection))
    (evs : List Event), order.Nodup →
    (drainMM order conns evs).2 = evs ++ lflat (mmEventsOf conns) order := by
  intro order
  induction order with
  | nil =>
    intro conns evs _
    simp [drainMM, lflat]
  | cons a rest ih =>
    intro conns evs hnd
    obtain ⟨hna, hndr⟩ := List.nodup_cons.mp hnd
    rw [drainMM]
    cases h0 : alookup a conns with
    | none =>
      dsimp only
      rw [ih conns evs hndr]
      rw [lflat]
      rw [show mmEventsOf conns a = [] from by rw [mmEventsOf, h0]]
      rfl
    | some c =>
      dsimp only
      rw [ih _ _ hndr]
      have hcg : ∀ b ∈ rest, mmEventsOf (amodify a
          (fun c2 => { c2 with messageManager :=
            { c2.messageManager with deliveryQueue := [] } }) conns) b
          = mmEventsOf conns b := by
        intro b hb
        have hba : b ≠ a := fun hh => hna (hh ▸ hb)
        rw [mmEventsOf, mmEventsOf, alookup_amodify_ne hba]
      rw [lflat_congr hcg]
      rw [lflat]
      rw [show mmEventsOf conns a
        = c.messageManager.deliveryQueue.map (fun q => Event.message c.userKey q.1 q.2)
        from by rw [mmEventsOf, h0]]
      rw [List.append_assoc]

theorem drainMM_tb : ∀ (order : List Nat) (conns : List (Nat × Connection))
    (evs : List Event) (t a : Nat),
    tbEventsOf t (drainMM order conns evs).1 a = tbEventsOf t conns a := by
  intro order
  induction order with
  | nil =>
    intro conns evs t a
    rfl
  | cons a0 rest ih =>
    intro conns evs t a
    rw [drainMM]
    cases h0 : alookup a0 conns with
    | none =>
      dsimp only
      rw [ih]
    | some c =>
      dsimp only
      rw [ih]
      by_cases ha : a = a0
      · subst ha
        rw [tbEventsOf, tbEventsOf, alookup_amodify_self, h0]
        rfl
      · rw [tbEventsOf, tbEventsOf, alookup_amodify_ne ha]

theorem drainTB_events (t : Nat) : ∀ (order : List Nat) (conns : List (Nat × Connection))
    (evs : List Event), order.Nodup →
    (drainTB t order conns evs).2 = evs ++ lflat (tbEventsOf t conns) order := by
  intro order
  induction order with
  | nil =>
    intro conns evs _
    simp [drainTB, lflat]
  | cons a rest ih =>
    intro conns evs hnd
    obtain ⟨hna, hndr⟩ := List.nodup_cons.mp hnd
    rw [drainTB]
    cases h0 : alookup a conns with
    | none =>
      dsimp only
      rw [ih conns evs hndr]
      rw [lflat]
      rw [show tbEventsOf t conns a = [] from by rw [tbEventsOf, h0]]
      rfl
    | some c =>
      dsimp only
      rw [ih _ _ hndr]
      have hcg : ∀ b ∈ rest, tbEventsOf t (amodify a
          (fun c2 => { c2 with tickBuffer :=
            c2.tickBuffer.filter (fun q => decide (t < q.1)) }) conns) b
          = tbEventsOf t conns b := by
        intro b hb
        have hba : b ≠ a := fun hh => hna (hh ▸ hb)
        rw [tbEventsOf, tbEventsOf, alookup_amodify_ne hba]
      rw [lflat_congr hcg]
      rw [lflat]
      rw [show tbEventsOf t conns a
        = (c.tickBuffer.filter (fun q => q.1 == t)).map
            (fun q => Event.message c.userKey q.2.1 q.2.2)
        from by rw [tbEventsOf, h0]]
      rw [List.append_assoc]

theorem countTick_append : ∀ l1 l2 : List Event,
    countTick (l1 ++ l2) = countTick l1 + countTick l2 := by
  intro l1 l2
  induction l1 with
  | nil => simp [countTick]
  | cons e rest ih =>
    rw [List.cons_append, countTick, countTick, ih, Nat.add_assoc]

theorem countTick_zero_of_not_mem : ∀ {l : List Event}, Event.tick ∉ l → countTick l = 0 := by
  intro l
  induction l with
  | nil => intro _; rfl
  | cons e rest ih =>
    intro hnm
    rw [countTick]
    have hne : e ≠ Event.tick := fun hh => hnm (hh ▸ List.mem_cons_self e rest)
    rw [if_neg hne, ih (fun hm => hnm (List.mem_cons_of_mem e hm))]

theorem countTick_map {α : Type} (f : α → Event) (hf : ∀ x, f x ≠ Event.tick) :
    ∀ l : List α, countTick (l.map f) = 0 := by
  intro l
  induction l with
  | nil => rfl
  | cons x rest ih =>
    rw [List.map_cons, countTick, if_neg (hf x), ih]

theorem countTick_mmEventsOf (conns : List (Nat × Connection)) (a : Nat) :
    countTick (mmEventsOf conns a) = 0 := by
  rw [mmEventsOf]
  cases alookup a conns with
  | none => rfl
  | some c => exact countTick_map _ (fun x => by simp) _

theorem countTick_tbEventsOf (t : Nat) (conns : List (Nat × Connection)) (a : Nat) :
    countTick (tbEventsOf t conns a) = 0 := by
  rw [tbEventsOf]
  cases alookup a conns with
  | none => rfl
  | some c => exact countTick_map _ (fun x => by simp) _

theorem countTick_lflat {f : Nat → List Event} (hf : ∀ a, countTick (f a) = 0) :
    ∀ order : List Nat, countTick (lflat f order) = 0 := by
  intro order
  induction order with
  | nil => rfl
  | cons a rest ih =>
    rw [lflat, countTick_append, hf a, ih]

/-- Claim C6: `receive()` returns, after the events accumulated by the
maintenance phase (which never include a Tick), the per-user channel
message events drained in one randomized order of the connected user
addresses, then — exactly when a server tick elapsed during the call — the
tick-buffered message events for the current server tick in that same user
order followed by exactly one Tick event; a call never contributes more
than one Tick event, and none when no tick elapsed or no TickManager is
configured. -/
theorem receive_event_order (s : Server) (inbox : List (Nat × InPacket)) (order : List Nat)
    (s1 : Server) (evs : List Event) (s2 : Server)
    (hm : s.maintain_socket inbox = some s1)
    (hrecv : s.receive inbox order = some (evs, s2))
    (hperm : order.Perm (s1.user_connections.map Prod.fst))
    (hnd : (s1.user_connections.map Prod.fst).Nodup)
    (hnt : Event.tick ∉ s.incoming_events) :
    (s1.tick_manager = none →
       evs = s1.incoming_events ++ lflat (mmEventsOf s1.user_connections) order
       ∧ countTick evs = 0)
    ∧ (∀ tm, s1.tick_manager = some tm →
        ((tm.recv_server_tick).1 = true →
          evs = s1.incoming_events ++ lflat (mmEventsOf s1.user_connections) order
            ++ lflat (tbEventsOf (tm.recv_server_tick).2.server_tick s1.user_connections)
                 order
            ++ [Event.tick]
          ∧ countTick evs = 1)
        ∧ ((tm.recv_server_tick).1 = false →
          evs = s1.incoming_events ++ lflat (mmEventsOf s1.user_connections) order
          ∧ countTick evs = 0))
    ∧ (s.tick_manager = none → s1.tick_manager = none) := by
  obtain ⟨htm, l, hev, hlnt⟩ := mext_maintain s inbox s1 hm
  have hnt1 : countTick s1.incoming_events = 0 := by
    rw [hev, countTick_append, countTick_zero_of_not_mem hnt,
      countTick_zero_of_not_mem hlnt]
  have hndo : order.Nodup := hperm.nodup_iff.mpr hnd
  have hmm0 : countTick (lflat (mmEventsOf s1.user_connections) order) = 0 :=
    countTick_lflat (countTick_mmEventsOf s1.user_connections) order
  unfold Server.receive at hrecv
  rw [hm] at hrecv
  dsimp only at hrecv
  refine ⟨?_, ?_, ?_⟩
  · intro h0
    rw [h0] at hrecv
    injection hrecv with h2
    injection h2 with hl hr
    have hevs2 : evs = (drainMM order s1.user_connections s1.incoming_events).2 := hl.symm
    rw [drainMM_events order s1.user_connections s1.incoming_events hndo] at hevs2
    refine ⟨hevs2, ?_⟩
    rw [hevs2, countTick_append, hnt1, hmm0]
  · intro tm h0
    rw [h0] at hrecv
    dsimp only at hrecv
    constructor
    · intro htick
      rw [htick] at hrecv
      rw [if_pos rfl] at hrecv
      injection hrecv with h2
      injection h2 with hl hr
      have hevs := hl.symm
      rw [drainTB_events (tm.recv_server_tick).2.server_tick order _ _ hndo] at hevs
      rw [drainMM_events order s1.user_connections s1.incoming_events hndo] at hevs
      have htbc : ∀ b ∈ order,
          tbEventsOf (tm.recv_server_tick).2.server_tick
            (drainMM order s1.user_connections s1.incoming_events).1 b
          = tbEventsOf (tm.recv_server_tick).2.server_tick s1.user_connections b := by
        intro b hb
        exact drainMM_tb order s1.user_connections s1.incoming_events _ b
      rw [lflat_congr htbc] at hevs
      have hevs3 : evs = s1.incoming_events
          ++ lflat (mmEventsOf s1.user_connections) order
          ++ lflat (tbEventsOf (tm.recv_server_tick).2.server_tick s1.user_connections)
               order
          ++ [Event.tick] := by
        rw [hevs]
      refine ⟨hevs3, ?_⟩
      rw [hevs3]
      rw [countTick_append, countTick_append, countTick_append, hnt1, hmm0]
      rw [countTick_lflat
        (countTick_tbEventsOf (tm.recv_server_tick).2.server_tick s1.user_connections)
        order]
      rfl
    · intro htick
      rw [htick] at hrecv
      rw [if_neg (by simp)] at hrecv
      injection hrecv with h2
      injection h2 with hl hr
      have hevs := hl.symm
      rw [drainMM_events order s1.user_connections s1.incoming_events hndo] at hevs
      refine ⟨hevs, ?_⟩
      rw [hevs, countTick_append, hnt1, hmm0]
  · intro h0
    exact htm.trans h0

theorem receive_event_order_witness : countTick c6Out.1 = 1 :=
  (((receive_event_order c6Server [] [9] c6Server c6Out.1 c6Out.2 (by decide) (by decide)
      (by decide) (by decide) (by decide)).2.1 { serverTick := 5, ticksPending := 1 }
      (by decide)).1 (by decide)).2

end Lightyear
